import Mathlib

/-!
# Managed control plane services of cluster-api-provider-azure

A shallow embedding of

* `controllers/azuremanagedcontrolplane_reconciler.go`
* `azure/services/managedroleassignments/roleassignments.go`
* `azure/services/managedroledefinitions/{client,roledefinitions,spec}.go`

Go functions become Lean functions over an explicit world state `σ`.  A
function that calls collaborators returns a triple: how its body ended
(`Outcome`), the calls and log lines it made in the order it made them
(`List Event`), and the world it left behind.  Collaborators whose code lives
outside these files (the service list, the Kubernetes client, the Azure SDK
clients, the async reconciler) are fields of the receiver structures; a pointer
is an `Option`, and dereferencing a nil pointer ends the run with
`Outcome.fault`.
-/

set_option autoImplicit false

namespace Capz

/-! ## Go values -/

/-- Go `error` values, as far as their message goes.  `errorf msg` is an error
made by `errors.New`/`errors.Errorf` or handed back by a collaborator; `wrap cause
msg` is the error that `errors.Wrap(cause, msg)`, `errors.Wrapf` and
`fmt.Errorf("msg: %w", cause)` build around `cause`. -/
inductive GoError where
  | errorf (msg : String)
  | wrap (cause : GoError) (msg : String)
  deriving DecidableEq, Repr

/-- The `Error()` method: a wrapped error prints its message, a colon, and its cause. -/
def GoError.Error : GoError → String
  | .errorf msg => msg
  | .wrap cause msg => msg ++ ": " ++ cause.Error

/-- How a Go function body ends: it returns, or the goroutine faults at run time
(nil pointer dereference, index out of range). -/
inductive Outcome (α : Type) where
  | ret (a : α)
  | fault
  deriving DecidableEq, Repr

/-- Calls made on collaborators, in program order. -/
inductive Event where
  | serviceReconcile (index : Nat)
  | serviceDelete (index : Nat)
  | reconcileKubeconfig
  | deleteUnmanagedAgentPools
  | kubeclientList
  | kubeclientCreateOrUpdate
  | agentPoolsList
  | agentPoolsDelete (name : String) (err : Option GoError)
  | agentPoolsNext
  | managedClustersGet
  | createOrUpdateResource (resourceName serviceName : String) (err : Option GoError)
  | deleteResource (resourceName serviceName : String) (err : Option GoError)
  | roleDefinitionsCreateOrUpdate (scope roleDefinitionID : String)
  | log (msg : String)
  deriving DecidableEq, Repr

/-- A finished run: outcome, calls made, world left behind. -/
abbrev Run (σ α : Type) := Outcome α × List Event × σ

/-- Put the calls `t`, made earlier, in front of those of the run `r`. -/
def Run.after {σ α : Type} (t : List Event) (r : Run σ α) : Run σ α :=
  (r.1, t ++ r.2.1, r.2.2)

/-! ## Types declared outside the embedded files -/

/-- Go `authorization.Permission` (profile 2019-03-01). -/
structure Permission where
  Actions : Option (List String)
  NotActions : Option (List String)
  deriving DecidableEq, Repr

/-- Go `authorization.RoleDefinitionProperties`. -/
structure RoleDefinitionProperties where
  RoleName : Option String
  Description : Option String
  RoleType : Option String
  Permissions : Option (List Permission)
  AssignableScopes : Option (List String)
  deriving DecidableEq, Repr

/-- Go `authorization.RoleDefinition`. -/
structure RoleDefinition where
  ID : Option String
  Name : Option String
  Type_ : Option String
  RoleDefinitionProperties : Option RoleDefinitionProperties
  deriving DecidableEq, Repr

/-- Go `containerservice.ManagedClusterIdentity`. -/
structure ManagedClusterIdentity where
  PrincipalID : Option String
  TenantID : Option String
  Type_ : String
  deriving DecidableEq, Repr

/-- Go `containerservice.ManagedCluster`, with the fields read here. -/
structure ManagedCluster where
  ID : Option String
  Name : Option String
  Identity : Option ManagedClusterIdentity
  deriving DecidableEq, Repr

/-- Go `containerservice.AgentPool`, with the fields read here. -/
structure AgentPool where
  ID : Option String
  Name : Option String
  deriving DecidableEq, Repr

/-- Dynamic values of type `interface{}` other than the nil interface, which is
`none : Option GoValue`.  `other typeName` is a value of any dynamic type not
listed, `typeName` being what `%T` prints for it. -/
inductive GoValue where
  | roleDefinition (v : RoleDefinition)
  | roleDefinitionProperties (v : RoleDefinitionProperties)
  | managedCluster (v : ManagedCluster)
  | other (typeName : String)
  deriving DecidableEq, Repr

/-- What the verb `%T` prints for an `interface{}`. -/
def typeName : Option GoValue → String
  | none => "<nil>"
  | some (.roleDefinition _) => "authorization.RoleDefinition"
  | some (.roleDefinitionProperties _) => "authorization.RoleDefinitionProperties"
  | some (.managedCluster _) => "containerservice.ManagedCluster"
  | some (.other n) => n

/-- Go interface `azure.ResourceSpecGetter`. -/
structure ResourceSpecGetter where
  ResourceName : String
  OwnerResourceName : String
  ResourceGroupName : String
  Parameters : Option GoValue → Option GoValue × Option GoError

/-- Go interface `azure.ServiceReconciler`, with the methods the controller calls. -/
structure ServiceReconciler (σ : Type) where
  Name : String
  Reconcile : σ → Outcome (Option GoError) × σ
  Delete : σ → Outcome (Option GoError) × σ

/-- Go `corev1.Secret`, with the fields written here. -/
structure Secret where
  Name : String
  Namespace : String
  Labels : Option (List (String × String))
  Data : Option (List (String × List UInt8))
  deriving DecidableEq, Repr

/-- Go `infrav1.AzureManagedMachinePoolSpec`, with the field read here. -/
structure AzureManagedMachinePoolSpec where
  Name : Option String
  deriving DecidableEq, Repr

/-- Go `infrav1.AzureManagedMachinePool`. -/
structure AzureManagedMachinePool where
  Name : String
  Spec : AzureManagedMachinePoolSpec
  deriving DecidableEq, Repr

/-- Go `containerservice.AgentPoolListResultPage`: the page at hand and the
answers the server gives to the `NextWithContext` calls still to come. -/
structure AgentPoolListResultPage where
  current : List AgentPool
  pending : List (Except GoError (List AgentPool))

/-- Go `page.NotDone()`: the page at hand is not empty. -/
def AgentPoolListResultPage.NotDone (page : AgentPoolListResultPage) : Bool :=
  !page.current.isEmpty

/-- Go `page.Values()`. -/
def AgentPoolListResultPage.Values (page : AgentPoolListResultPage) : List AgentPool :=
  page.current

/-- The agent pools a caller gets by walking the pager with
`NotDone`/`Values`/`NextWithContext` until it is done or a fetch fails.
`NextWithContext` moves to the next answer of `pending`; past the last answer
the page at hand is empty. -/
def listedPools : List AgentPool → List (Except GoError (List AgentPool)) → List AgentPool
  | [], _ => []
  | p :: ps, [] => p :: ps
  | p :: ps, .error _ :: _ => p :: ps
  | p :: ps, .ok vs :: rest => (p :: ps) ++ listedPools vs rest

/-- Go `containerservice.AgentPoolsClient`. -/
structure AgentPoolsClient (σ : Type) where
  List : String → String → σ → Except GoError AgentPoolListResultPage × σ
  Delete : String → String → String → σ → Option GoError × σ

/-- Go `client.Client` of controller-runtime, with `controllerutil.CreateOrUpdate`
on secrets. -/
structure KubeClient (σ : Type) where
  List : List (String × String) → σ → Except GoError (List AzureManagedMachinePool) × σ
  CreateOrUpdate : Secret → (Secret → Secret × Option GoError) → σ → Option GoError × σ

/-- Go interface `managedclusters.ManagedClusterScope`, with the methods called here. -/
structure ManagedClusterScope (σ : Type) where
  ManagedClusterSpec : ResourceSpecGetter
  BaseURI : String
  SubscriptionID : String
  GetKubeConfigData : σ → Option (List UInt8)
  MakeEmptyKubeConfigSecret : Secret

/-- Go `clusterv1.ClusterNameLabel`. -/
def ClusterNameLabel : String := "cluster.x-k8s.io/cluster-name"

/-- Go `secret.KubeconfigDataName`. -/
def KubeconfigDataName : String := "value"

/-- Go `m[k] = v` on a map kept as an association list. -/
def mapSet {β : Type} (m : List (String × β)) (k : String) (v : β) : List (String × β) :=
  (k, v) :: m.filter (fun kv => kv.1 ≠ k)

/-! ## controllers/azuremanagedcontrolplane_reconciler.go -/

/-- Go `azureManagedControlPlaneService`.  `NewAgentPoolsClientWithBaseURI` is the
SDK constructor called in `deleteUnmanagedAgentPools`. -/
structure azureManagedControlPlaneService (σ : Type) where
  kubeclient : KubeClient σ
  scope : ManagedClusterScope σ
  services : List (ServiceReconciler σ)
  NewAgentPoolsClientWithBaseURI : String → String → AgentPoolsClient σ

section controller

variable {σ : Type}

/-- The loop `for _, service := range r.services` of `Reconcile`, from the
service at index `i` on.  `ret none` means the loop ran to its end. -/
def reconcileServices : List (ServiceReconciler σ) → Nat → σ → Run σ (Option GoError)
  | [], _, w => (.ret none, [], w)
  | service :: rest, i, w =>
    match service.Reconcile w with
    | (.fault, w1) => (.fault, [.serviceReconcile i], w1)
    | (.ret (some err), w1) =>
      (.ret (some (.wrap err
        ("failed to reconcile AzureManagedControlPlane service " ++ service.Name))),
        [.serviceReconcile i], w1)
    | (.ret none, w1) => Run.after [.serviceReconcile i] (reconcileServices rest (i + 1) w1)

/-- Go `reconcileKubeconfig`. -/
def azureManagedControlPlaneService.reconcileKubeconfig
    (r : azureManagedControlPlaneService σ) (w : σ) : Run σ (Option GoError) :=
  match r.scope.GetKubeConfigData w with
  | none => (.ret none, [.reconcileKubeconfig], w)
  | some kubeConfigData =>
    let kubeConfigSecret := r.scope.MakeEmptyKubeConfigSecret
    match r.kubeclient.CreateOrUpdate kubeConfigSecret
        (fun s =>
          ({ s with
              Labels := some (mapSet (s.Labels.getD []) "cluster.x-k8s.io/cluster-name"
                r.scope.ManagedClusterSpec.ResourceName)
              Data := some [(KubeconfigDataName, kubeConfigData)] }, none)) w with
    | (some err, w1) =>
      (.ret (some (.wrap err "failed to kubeconfig secret for cluster")),
        [.reconcileKubeconfig, .kubeclientCreateOrUpdate], w1)
    | (none, w1) => (.ret none, [.reconcileKubeconfig, .kubeclientCreateOrUpdate], w1)

/-- The loop `for _, pool := range managedMachinePools.Items` filling `poolMap`;
the keys of the map are kept as a list. -/
def buildPoolMap : List AzureManagedMachinePool → List String → Outcome (List String)
  | [], poolMap => .ret poolMap
  | pool :: rest, poolMap =>
    match pool.Spec.Name with
    | none => .fault
    | some name => buildPoolMap rest (name :: poolMap)

/-- The loop `for _, pool := range result.Values()` of `deleteUnmanagedAgentPools`.
`ret none` means the loop ran to its end. -/
def deletePagePools (client : AgentPoolsClient σ) (resourceGroup clusterName : String)
    (poolMap : List String) : List AgentPool → σ → Run σ (Option GoError)
  | [], w => (.ret none, [], w)
  | pool :: rest, w =>
    match pool.Name with
    | none => (.fault, [], w)
    | some name =>
      if name ∈ poolMap then
        deletePagePools client resourceGroup clusterName poolMap rest w
      else
        match client.Delete resourceGroup clusterName name w with
        | (some err, w1) =>
          (.ret (some (.wrap err
            ("failed to delete agent pool " ++ name ++ " in cluster " ++ clusterName))),
            [.log "start delete node group", .agentPoolsDelete name (some err)], w1)
        | (none, w1) =>
          Run.after [.log "start delete node group", .agentPoolsDelete name none]
            (deletePagePools client resourceGroup clusterName poolMap rest w1)

/-- One round of the loop `for result.NotDone()` of `deleteUnmanagedAgentPools` on
the page at hand: when the page is not empty its pools are handled, and if none
of that returned, `next` runs `result.NextWithContext(ctx)` and what follows it. -/
def deletePage (client : AgentPoolsClient σ) (resourceGroup clusterName : String)
    (poolMap : List String) (result : AgentPoolListResultPage) (w : σ)
    (next : σ → Run σ (Option GoError)) : Run σ (Option GoError) :=
  if result.NotDone then
    match deletePagePools client resourceGroup clusterName poolMap result.Values w with
    | (.ret none, t, w1) => Run.after (t ++ [.agentPoolsNext]) (next w1)
    | stopped => stopped
  else (.ret none, [], w)

/-- The loop `for result.NotDone()` of `deleteUnmanagedAgentPools`, by the answer
`NextWithContext` gets: when no page is left the page at hand becomes empty and
the loop ends, an error is returned wrapped, a further page becomes the page at
hand of the next round. -/
def deletePages (client : AgentPoolsClient σ) (resourceGroup clusterName : String)
    (poolMap : List String) :
    List (Except GoError (List AgentPool)) → List AgentPool → σ → Run σ (Option GoError)
  | [], current, w =>
    deletePage client resourceGroup clusterName poolMap ⟨current, []⟩ w
      (fun w1 => (.ret none, [], w1))
  | .error err :: rest, current, w =>
    deletePage client resourceGroup clusterName poolMap ⟨current, .error err :: rest⟩ w
      (fun w1 => (.ret (some (.wrap err "failed to list agent pools")), [], w1))
  | .ok vs :: rest, current, w =>
    deletePage client resourceGroup clusterName poolMap ⟨current, .ok vs :: rest⟩ w
      (fun w1 => deletePages client resourceGroup clusterName poolMap rest vs w1)

/-- Go `deleteUnmanagedAgentPools`. -/
def azureManagedControlPlaneService.deleteUnmanagedAgentPools
    (r : azureManagedControlPlaneService σ) (w : σ) : Run σ (Option GoError) :=
  let clusterName := r.scope.ManagedClusterSpec.ResourceName
  let listOptions := [(ClusterNameLabel, clusterName)]
  match r.kubeclient.List listOptions w with
  | (.error err, w1) =>
    (.ret (some (.wrap err ("failed to list managed machine pools for cluster " ++ clusterName))),
      [.deleteUnmanagedAgentPools, .kubeclientList], w1)
  | (.ok items, w1) =>
    match buildPoolMap items [] with
    | .fault => (.fault, [.deleteUnmanagedAgentPools, .kubeclientList], w1)
    | .ret poolMap =>
      let agentPoolsClient :=
        r.NewAgentPoolsClientWithBaseURI r.scope.BaseURI r.scope.SubscriptionID
      match agentPoolsClient.List r.scope.ManagedClusterSpec.ResourceGroupName clusterName w1 with
      | (.error err, w2) =>
        (.ret (some (.wrap err "failed to list agent pools")),
          [.deleteUnmanagedAgentPools, .kubeclientList, .agentPoolsList], w2)
      | (.ok result, w2) =>
        Run.after [.deleteUnmanagedAgentPools, .kubeclientList, .agentPoolsList]
          (deletePages agentPoolsClient r.scope.ManagedClusterSpec.ResourceGroupName clusterName
            poolMap result.pending result.current w2)

/-- Go `azureManagedControlPlaneService.Reconcile`. -/
def azureManagedControlPlaneService.Reconcile
    (r : azureManagedControlPlaneService σ) (w : σ) : Run σ (Option GoError) :=
  match reconcileServices r.services 0 w with
  | (.ret none, t, w1) =>
    match r.reconcileKubeconfig w1 with
    | (.ret none, t2, w2) =>
      match r.deleteUnmanagedAgentPools w2 with
      | (.ret none, t3, w3) => (.ret none, t ++ t2 ++ t3, w3)
      | (.ret (some err), t3, w3) =>
        (.ret (some (.wrap err "failed to delete unmanaged agent pools")), t ++ t2 ++ t3, w3)
      | (.fault, t3, w3) => (.fault, t ++ t2 ++ t3, w3)
    | (.ret (some err), t2, w2) =>
      (.ret (some (.wrap err "failed to reconcile kubeconfig secret")), t ++ t2, w2)
    | (.fault, t2, w2) => (.fault, t ++ t2, w2)
  | stopped => stopped

/-- The loop `for i := len(r.services) - 1; i >= 0; i--` of `Delete`; `k` is
`i + 1`.  `ret none` means the loop ran to its end. -/
def deleteServices (services : List (ServiceReconciler σ)) : Nat → σ → Run σ (Option GoError)
  | 0, w => (.ret none, [], w)
  | i + 1, w =>
    match services[i]? with
    | none => (.fault, [], w)
    | some service =>
      match service.Delete w with
      | (.fault, w1) => (.fault, [.serviceDelete i], w1)
      | (.ret (some err), w1) =>
        (.ret (some (.wrap err
          ("failed to delete AzureManagedControlPlane service " ++ service.Name))),
          [.serviceDelete i], w1)
      | (.ret none, w1) => Run.after [.serviceDelete i] (deleteServices services i w1)

/-- Go `azureManagedControlPlaneService.Delete`. -/
def azureManagedControlPlaneService.Delete
    (r : azureManagedControlPlaneService σ) (w : σ) : Run σ (Option GoError) :=
  deleteServices r.services r.services.length w

end controller

/-! ## azure/services/managedroledefinitions -/

namespace managedroledefinitions

/-- Go `const serviceName`. -/
def serviceName : String := "roledefinitions"

/-- Go `RoleDefinitionSpec`. -/
structure RoleDefinitionSpec where
  ResourceGroup : String
  RoleDefinitionID : String
  Scope : String
  RoleName : Option String
  AssignableScopes : Option (List String)
  Permissions : Option (List Permission)
  deriving DecidableEq, Repr

/-- Go `RoleDefinitionSpec.ResourceName`. -/
def RoleDefinitionSpec.ResourceName (s : RoleDefinitionSpec) : String :=
  s.RoleDefinitionID

/-- Go `RoleDefinitionSpec.ResourceGroupName`. -/
def RoleDefinitionSpec.ResourceGroupName (s : RoleDefinitionSpec) : String :=
  s.ResourceGroup

/-- Go `RoleDefinitionSpec.OwnerResourceName`. -/
def RoleDefinitionSpec.OwnerResourceName (s : RoleDefinitionSpec) : String :=
  s.Scope

/-- Go `RoleDefinitionSpec.Parameters`. -/
def RoleDefinitionSpec.Parameters (s : RoleDefinitionSpec) (existing : Option GoValue) :
    Option GoValue × Option GoError :=
  match existing with
  | some v =>
    match v with
    | .roleDefinition _ =>
      -- RoleDefinitionSpec already exists
      (none, none)
    | _ => (none, some (.errorf (typeName (some v) ++ " is not a authorization.RoleDefinition")))
  | none =>
    let roleType := "CustomRole"
    (some (.roleDefinitionProperties
      { RoleName := s.RoleName
        AssignableScopes := s.AssignableScopes
        Permissions := s.Permissions
        RoleType := some roleType
        Description := none }), none)

/-- A `RoleDefinitionSpec` seen through the interface `azure.ResourceSpecGetter`. -/
def RoleDefinitionSpec.toGetter (s : RoleDefinitionSpec) : ResourceSpecGetter :=
  { ResourceName := s.ResourceName
    OwnerResourceName := s.OwnerResourceName
    ResourceGroupName := s.ResourceGroupName
    Parameters := s.Parameters }

/-- Go interface `azureautorest.FutureAPI`: a handle on a long-running operation. -/
structure FutureAPI where
  pollingURL : String
  deriving DecidableEq, Repr

/-- Go `azureClient`: the methods of `authorization.RoleDefinitionsClient` it calls. -/
structure azureClient (σ : Type) where
  clientGet : String → String → σ → (RoleDefinition × Option GoError) × σ
  clientCreateOrUpdate :
    String → String → RoleDefinition → σ → (RoleDefinition × Option GoError) × σ

section client

variable {σ : Type}

/-- Go `azureClient.Get`. -/
def azureClient.Get (ac : azureClient σ) (spec : ResourceSpecGetter) (w : σ) :
    Run σ (Option GoValue × Option GoError) :=
  match ac.clientGet spec.OwnerResourceName spec.ResourceName w with
  | ((result, err), w1) => (.ret (some (.roleDefinition result), err), [], w1)

/-- Go `azureClient.CreateOrUpdateAsync`. -/
def azureClient.CreateOrUpdateAsync (ac : azureClient σ) (spec : ResourceSpecGetter)
    (parameters : Option GoValue) (w : σ) :
    Run σ (Option GoValue × Option FutureAPI × Option GoError) :=
  match parameters with
  | some (.roleDefinitionProperties createParams) =>
    let roleDefinitionID := spec.ResourceName
    match ac.clientCreateOrUpdate spec.OwnerResourceName roleDefinitionID
        { ID := some roleDefinitionID
          Name := createParams.RoleName
          Type_ := none
          RoleDefinitionProperties := some createParams } w with
    | ((result, some err), w1) =>
      (.ret (some (.roleDefinition result), none, some err),
        [.roleDefinitionsCreateOrUpdate spec.OwnerResourceName roleDefinitionID,
          .log "create role definition failed"], w1)
    | ((result, none), w1) =>
      (.ret (some (.roleDefinition result), none, none),
        [.roleDefinitionsCreateOrUpdate spec.OwnerResourceName roleDefinitionID,
          .log "create role definition successfully"], w1)
  | _ =>
    (.ret (none, none,
      some (.errorf (typeName parameters ++ " is not a authorization.RoleDefinitionProperties"))),
      [], w)

/-- Go `azureClient.Result`. -/
def azureClient.Result (_ac : azureClient σ) (_futureData : Option FutureAPI)
    (_futureType : String) (w : σ) : Run σ (Option GoValue × Option GoError) :=
  (.ret (none, none), [], w)

/-- Go `azureClient.DeleteAsync`. -/
def azureClient.DeleteAsync (_ac : azureClient σ) (_spec : ResourceSpecGetter) (w : σ) :
    Run σ (Option FutureAPI × Option GoError) :=
  (.ret (none, none), [], w)

/-- Go `Service`: the specs of its scope and the methods of the embedded
`async.Reconciler`. -/
structure Service (σ : Type) where
  RoleDefinitionSpecs : σ → List ResourceSpecGetter
  CreateOrUpdateResource :
    ResourceSpecGetter → String → σ → (Option GoValue × Option GoError) × σ
  DeleteResource : ResourceSpecGetter → String → σ → Option GoError × σ

/-- Go `Service.Name`. -/
def Service.Name (_s : Service σ) : String := serviceName

/-- The loop of `Service.Reconcile` over the role definition specs. -/
def Service.reconcileSpecs (s : Service σ) : List ResourceSpecGetter → σ → Run σ (Option GoError)
  | [], w => (.ret none, [], w)
  | roleDefinitionSpec :: rest, w =>
    match s.CreateOrUpdateResource roleDefinitionSpec serviceName w with
    | ((_, some err), w1) =>
      (.ret (some (.wrap err
        ("cannot create or update role definition " ++ roleDefinitionSpec.ResourceName))),
        [.log "Creating role definition",
          .createOrUpdateResource roleDefinitionSpec.ResourceName serviceName (some err),
          .log "failed to create role definition"], w1)
    | ((_, none), w1) =>
      Run.after [.log "Creating role definition",
          .createOrUpdateResource roleDefinitionSpec.ResourceName serviceName none]
        (s.reconcileSpecs rest w1)

/-- Go `Service.Reconcile`. -/
def Service.Reconcile (s : Service σ) (w : σ) : Run σ (Option GoError) :=
  Run.after [.log "reconciling role definition"] (s.reconcileSpecs (s.RoleDefinitionSpecs w) w)

/-- Go `Service.Delete`. -/
def Service.Delete (_s : Service σ) (w : σ) : Run σ (Option GoError) :=
  (.ret none, [], w)

/-- Go `Service.IsManaged`. -/
def Service.IsManaged (_s : Service σ) (w : σ) : Run σ (Bool × Option GoError) :=
  (.ret (true, none), [], w)

end client

end managedroledefinitions

/-! ## azure/services/managedroleassignments -/

namespace managedroleassignments

/-- Go `const serviceName`. -/
def serviceName : String := "roleassignments"

/-- Go `Service`: what it reads from its scope, the `Get` of its managed clusters
client, and the methods of the embedded `async.Reconciler`. -/
structure Service (σ : Type) where
  ResourceGroup : String
  ClusterName : String
  RoleAssignmentSpecs : Option String → σ → List ResourceSpecGetter
  managedClustersGet : String → String → σ → (Option GoValue × Option GoError) × σ
  CreateOrUpdateResource :
    ResourceSpecGetter → String → σ → (Option GoValue × Option GoError) × σ
  DeleteResource : ResourceSpecGetter → String → σ → Option GoError × σ

section service

variable {σ : Type}

/-- Go `Service.Name`. -/
def Service.Name (_s : Service σ) : String := serviceName

/-- The log line written for a spec whose `ResourceName()` is empty. -/
def emptyNameWarning (spec : ResourceSpecGetter) : List Event :=
  if spec.ResourceName = "" then
    [.log ("RoleAssignmentName is empty. This is not expected and will cause this " ++
      "System Assigned Identity to have no permissions.")]
  else []

/-- Go `Service.getManagedClusterPrincipalID`. -/
def Service.getManagedClusterPrincipalID (s : Service σ) (w : σ) :
    Run σ (Option String × Option GoError) :=
  match s.managedClustersGet s.ResourceGroup s.ClusterName w with
  | ((_, some err), w1) =>
    (.ret (none, some err),
      [.log "fetching principal ID for ManagedCluster", .managedClustersGet], w1)
  | ((obj, none), w1) =>
    match obj with
    | some (.managedCluster cluster) =>
      match cluster.Identity with
      | none =>
        (.fault, [.log "fetching principal ID for ManagedCluster", .managedClustersGet], w1)
      | some identity =>
        (.ret (identity.PrincipalID, none),
          [.log "fetching principal ID for ManagedCluster", .managedClustersGet], w1)
    | _ =>
      (.ret (none, some (.errorf (typeName obj ++ " is not a containerservice.ManagedCluster"))),
        [.log "fetching principal ID for ManagedCluster", .managedClustersGet], w1)

/-- The loop of `Service.Reconcile` over the role assignment specs.  `ret none`
means the loop ran to its end. -/
def Service.reconcileSpecs (s : Service σ) : List ResourceSpecGetter → σ → Run σ (Option GoError)
  | [], w => (.ret none, [], w)
  | roleAssignmentSpec :: rest, w =>
    match s.CreateOrUpdateResource roleAssignmentSpec serviceName w with
    | ((_, some err), w1) =>
      (.ret (some (.wrap err "cannot assign role to system assigned identity")),
        [.log "Creating role assignment"] ++ emptyNameWarning roleAssignmentSpec ++
          [.createOrUpdateResource roleAssignmentSpec.ResourceName serviceName (some err),
            .log "failed to create role assignment"], w1)
    | ((_, none), w1) =>
      Run.after ([.log "Creating role assignment"] ++ emptyNameWarning roleAssignmentSpec ++
          [.createOrUpdateResource roleAssignmentSpec.ResourceName serviceName none])
        (s.reconcileSpecs rest w1)

/-- Go `Service.Reconcile`. -/
def Service.Reconcile (s : Service σ) (w : σ) : Run σ (Option GoError) :=
  match s.getManagedClusterPrincipalID w with
  | (.fault, t, w1) => (.fault, [.log "reconciling role assignment"] ++ t, w1)
  | (.ret (_, some err), t, w1) =>
    (.ret (some err),
      [.log "reconciling role assignment"] ++ t ++
        [.log "failed to get managed cluster principle ID"], w1)
  | (.ret (principalID, none), t, w1) =>
    Run.after ([.log "reconciling role assignment"] ++ t)
      (s.reconcileSpecs (s.RoleAssignmentSpecs principalID w1) w1)

/-- The loop of `Service.Delete` over the role assignment specs.  `ret none`
means the loop ran to its end. -/
def Service.deleteSpecs (s : Service σ) : List ResourceSpecGetter → σ → Run σ (Option GoError)
  | [], w => (.ret none, [], w)
  | roleAssignmentSpec :: rest, w =>
    match s.DeleteResource roleAssignmentSpec serviceName w with
    | (some err, w1) =>
      (.ret (some (.wrap err "cannot delete assign role assigned")),
        [.log "Deleting role assignment"] ++ emptyNameWarning roleAssignmentSpec ++
          [.deleteResource roleAssignmentSpec.ResourceName serviceName (some err),
            .log "failed to delete role assignment"], w1)
    | (none, w1) =>
      Run.after ([.log "Deleting role assignment"] ++ emptyNameWarning roleAssignmentSpec ++
          [.deleteResource roleAssignmentSpec.ResourceName serviceName none])
        (s.deleteSpecs rest w1)

/-- Go `Service.Delete`. -/
def Service.Delete (s : Service σ) (w : σ) : Run σ (Option GoError) :=
  s.deleteSpecs (s.RoleAssignmentSpecs none w) w

/-- Go `Service.IsManaged`. -/
def Service.IsManaged (_s : Service σ) (w : σ) : Run σ (Bool × Option GoError) :=
  (.ret (true, none), [], w)

end service

end managedroleassignments

/-! ## Vocabulary of the statements -/

section vocabulary

variable {σ : Type}

/-- The world reached by running `step` on each element of a list in turn, when
every one of them returns nil; `none` when one of them returns an error or faults. -/
def passAll {α : Type} (step : α → σ → Outcome (Option GoError) × σ) : List α → σ → Option σ
  | [], w => some w
  | a :: rest, w =>
    match step a w with
    | (.ret none, w1) => passAll step rest w1
    | _ => none

/-- The events that are an invocation of a service by the controller. -/
def Event.isServiceCall : Event → Bool
  | .serviceReconcile _ => true
  | .serviceDelete _ => true
  | _ => false

/-- The events that are a log line. -/
def Event.isLog : Event → Bool
  | .log _ => true
  | _ => false

/-- The calls of a run, its log lines left out. -/
def calls (t : List Event) : List Event :=
  t.filter (fun ev => !ev.isLog)

/-- The names and results of the agent pool deletions of a run, in order. -/
def agentPoolDeletes : List Event → List (String × Option GoError)
  | [] => []
  | .agentPoolsDelete name err :: t => (name, err) :: agentPoolDeletes t
  | _ :: t => agentPoolDeletes t

/-- One `CreateOrUpdateResource` call of the role assignment service, as a step
that succeeds or returns an error. -/
def managedroleassignments.Service.createStep (s : managedroleassignments.Service σ)
    (spec : ResourceSpecGetter) (w : σ) : Outcome (Option GoError) × σ :=
  (.ret (s.CreateOrUpdateResource spec managedroleassignments.serviceName w).1.2,
    (s.CreateOrUpdateResource spec managedroleassignments.serviceName w).2)

/-- The call event of a `CreateOrUpdateResource` that succeeds for `spec`. -/
def managedroleassignments.createdEvent (spec : ResourceSpecGetter) : Event :=
  .createOrUpdateResource spec.ResourceName managedroleassignments.serviceName none

/-- The controller with no service to reconcile: its `Reconcile` is what
`Reconcile` does after the loop over the services. -/
def azureManagedControlPlaneService.withoutServices (r : azureManagedControlPlaneService σ) :
    azureManagedControlPlaneService σ :=
  { r with services := [] }

/-- The local `clusterName` of `deleteUnmanagedAgentPools`. -/
def azureManagedControlPlaneService.clusterName (r : azureManagedControlPlaneService σ) :
    String :=
  r.scope.ManagedClusterSpec.ResourceName

/-- The local `agentPoolsClient` of `deleteUnmanagedAgentPools`. -/
def azureManagedControlPlaneService.agentPoolsClient (r : azureManagedControlPlaneService σ) :
    AgentPoolsClient σ :=
  r.NewAgentPoolsClientWithBaseURI r.scope.BaseURI r.scope.SubscriptionID

/-- The names under which the listed managed machine pools run their agent pool. -/
def managedPoolNames (items : List AzureManagedMachinePool) : List String :=
  items.filterMap (fun pool => pool.Spec.Name)

/-- The outcome and the agent pool deletions of a run fit: either no deletion
returned an error, or the last deletion did, and the run returned that error
wrapped with the name of the pool. -/
def DeletesFit (clusterName : String) (o : Outcome (Option GoError))
    (ds : List (String × Option GoError)) : Prop :=
  (∀ d ∈ ds, d.2 = none) ∨
    ∃ pre name e, ds = pre ++ [(name, some e)] ∧ (∀ d ∈ pre, d.2 = none) ∧
      o = .ret (some (.wrap e
        ("failed to delete agent pool " ++ name ++ " in cluster " ++ clusterName)))

/-- Every agent pool deletion of the run `r` is for a pool of `pools` whose name
is not a key of `poolMap`, and outcome and deletions fit. -/
def PageSound (cn : String) (poolMap : List String) (pools : List AgentPool)
    (r : Run σ (Option GoError)) : Prop :=
  (∀ d ∈ agentPoolDeletes r.2.1, d.1 ∉ poolMap ∧ ∃ pool ∈ pools, pool.Name = some d.1) ∧
    DeletesFit cn r.1 (agentPoolDeletes r.2.1)

/-- The deletions the claim describes: the agent pools named `names` are deleted
through the client one after the other, each in the world the one before left;
the first deletion that fails ends the run, which returns its error wrapped as
`deleteUnmanagedAgentPools` wraps it.  The result is the outcome, the deletions
asked for with the client's answers, and the world left behind. -/
def runDeletes (client : AgentPoolsClient σ) (resourceGroup clusterName : String) :
    List String → σ → Outcome (Option GoError) × List (String × Option GoError) × σ
  | [], w => (.ret none, [], w)
  | name :: rest, w =>
    match client.Delete resourceGroup clusterName name w with
    | (some err, w1) =>
      (.ret (some (.wrap err
        ("failed to delete agent pool " ++ name ++ " in cluster " ++ clusterName))),
        [(name, some err)], w1)
    | (none, w1) =>
      ((runDeletes client resourceGroup clusterName rest w1).1,
        (name, none) :: (runDeletes client resourceGroup clusterName rest w1).2.1,
        (runDeletes client resourceGroup clusterName rest w1).2.2)

/-- The outcome of a run, its agent pool deletions, and the world it left. -/
def deletionsOf (r : Run σ (Option GoError)) :
    Outcome (Option GoError) × List (String × Option GoError) × σ :=
  (r.1, agentPoolDeletes r.2.1, r.2.2)

/-- The names of the agent pools `pools` that are no key of `poolMap`, in order. -/
def unmanagedNames (poolMap : List String) (pools : List AgentPool) : List String :=
  (pools.filterMap AgentPool.Name).filter (fun n => decide (n ∉ poolMap))

end vocabulary

/-! ## Concrete systems

The world is the number of calls the collaborators have answered. -/

namespace Example

/-- A service that answers `Reconcile` and `Delete` with fixed results. -/
def service (name : String) (reconcileErr deleteErr : Option GoError) : ServiceReconciler Nat :=
  { Name := name
    Reconcile := fun w => (.ret reconcileErr, w + 1)
    Delete := fun w => (.ret deleteErr, w + 1) }

/-- Service `A`, which never fails. -/
def serviceA : ServiceReconciler Nat := service "A" none none

/-- Service `B`, whose `Reconcile` and `Delete` both fail. -/
def serviceB : ServiceReconciler Nat :=
  service "B" (some (.errorf "quota exceeded")) (some (.errorf "still in use"))

/-- Service `C`, which never fails. -/
def serviceC : ServiceReconciler Nat := service "C" none none

/-- One managed machine pool, running the agent pool `np0`. -/
def machinePools : List AzureManagedMachinePool :=
  [{ Name := "pool0", Spec := { Name := some "np0" } }]

/-- The agent pool listing: a first page with `np0` and `np1`, a second with `np2`. -/
def agentPoolPages : AgentPoolListResultPage :=
  { current := [{ ID := none, Name := some "np0" }, { ID := none, Name := some "np1" }]
    pending := [.ok [{ ID := none, Name := some "np2" }]] }

/-- An agent pools client that lists `agentPoolPages` and deletes without error. -/
def agentPools : AgentPoolsClient Nat :=
  { List := fun _ _ w => (.ok agentPoolPages, w + 1)
    Delete := fun _ _ _ w => (none, w + 1) }

/-- A control plane service over the services `services`. -/
def controller (services : List (ServiceReconciler Nat)) : azureManagedControlPlaneService Nat :=
  { kubeclient :=
      { List := fun _ w => (.ok machinePools, w + 1)
        CreateOrUpdate := fun _ _ w => (none, w + 1) }
    scope :=
      { ManagedClusterSpec :=
          { ResourceName := "cl"
            OwnerResourceName := ""
            ResourceGroupName := "rg"
            Parameters := fun _ => (none, none) }
        BaseURI := "https://management.azure.com"
        SubscriptionID := "sub"
        GetKubeConfigData := fun _ => none
        MakeEmptyKubeConfigSecret :=
          { Name := "cl-kubeconfig", Namespace := "default", Labels := none, Data := none } }
    services := services
    NewAgentPoolsClientWithBaseURI := fun _ _ => agentPools }

/-- The control plane service `controller []` over other listings: the managed
machine pools `items` and the agent pool pages `pages`. -/
def controllerListing (items : List AzureManagedMachinePool) (pages : AgentPoolListResultPage) :
    azureManagedControlPlaneService Nat :=
  { controller [] with
    kubeclient :=
      { List := fun _ w => (.ok items, w + 1)
        CreateOrUpdate := fun _ _ w => (none, w + 1) }
    NewAgentPoolsClientWithBaseURI := fun _ _ =>
      { List := fun _ _ w => (.ok pages, w + 1)
        Delete := fun _ _ _ w => (none, w + 1) } }

/-- One managed machine pool whose `Spec.Name` is not set. -/
def machinePoolsUnnamed : List AzureManagedMachinePool :=
  [{ Name := "pool0", Spec := { Name := none } }]

/-- One page of agent pools: `np1` alone. -/
def agentPoolPageNp1 : AgentPoolListResultPage :=
  { current := [{ ID := none, Name := some "np1" }]
    pending := [] }

/-- One page of agent pools: a pool without a name, then `np1`. -/
def agentPoolPageUnnamed : AgentPoolListResultPage :=
  { current := [{ ID := none, Name := none }, { ID := none, Name := some "np1" }]
    pending := [] }

/-- A role assignment spec with the resource name `name`. -/
def roleAssignmentSpec (name : String) : ResourceSpecGetter :=
  { ResourceName := name
    OwnerResourceName := "scope"
    ResourceGroupName := "rg"
    Parameters := fun _ => (none, none) }

/-- The managed cluster the role assignment service looks up. -/
def cluster : ManagedCluster :=
  { ID := none
    Name := some "cl"
    Identity := some { PrincipalID := some "principal", TenantID := none, Type_ := "SystemAssigned" } }

/-- A role assignment service with two specs, the first with an empty name;
creating succeeds, deleting fails. -/
def roleAssignments : managedroleassignments.Service Nat :=
  { ResourceGroup := "rg"
    ClusterName := "cl"
    RoleAssignmentSpecs := fun _ _ => [roleAssignmentSpec "", roleAssignmentSpec "ra2"]
    managedClustersGet := fun _ _ w => ((some (.managedCluster cluster), none), w + 1)
    CreateOrUpdateResource := fun _ _ w => ((none, none), w + 1)
    DeleteResource := fun _ _ w => (some (.errorf "authorization failed"), w + 1) }

/-- A managed cluster that runs under a service principal: it has no identity. -/
def clusterWithoutIdentity : ManagedCluster :=
  { ID := none
    Name := some "cl"
    Identity := none }

/-- The role assignment service `roleAssignments`, looking up a cluster that has
no identity. -/
def roleAssignmentsNoIdentity : managedroleassignments.Service Nat :=
  { roleAssignments with
    managedClustersGet := fun _ _ w =>
      ((some (.managedCluster clusterWithoutIdentity), none), w + 1) }

/-- A role definition as the remote API returns it. -/
def remoteRoleDefinition : RoleDefinition :=
  { ID := some "role-id"
    Name := some "capz-role"
    Type_ := some "Microsoft.Authorization/roleDefinitions"
    RoleDefinitionProperties := none }

/-- A role definitions client whose remote calls succeed. -/
def roleDefinitionsClient : managedroledefinitions.azureClient Nat :=
  { clientGet := fun _ _ w => ((remoteRoleDefinition, none), w + 1)
    clientCreateOrUpdate := fun _ _ created w => ((created, none), w + 1) }

/-- A role definition spec. -/
def roleDefinitionSpec : managedroledefinitions.RoleDefinitionSpec :=
  { ResourceGroup := "rg"
    RoleDefinitionID := "role-id"
    Scope := "/subscriptions/sub"
    RoleName := some "capz-role"
    AssignableScopes := some ["/subscriptions/sub"]
    Permissions := some [{ Actions := some ["*/read"], NotActions := none }] }

end Example

/-! ## Runs and steps -/

section
variable {σ : Type}

@[simp] theorem Run.after_fst {α : Type} (t : List Event) (r : Run σ α) :
    (Run.after t r).1 = r.1 := rfl

@[simp] theorem Run.after_trace {α : Type} (t : List Event) (r : Run σ α) :
    (Run.after t r).2.1 = t ++ r.2.1 := rfl

@[simp] theorem Run.after_world {α : Type} (t : List Event) (r : Run σ α) :
    (Run.after t r).2.2 = r.2.2 := rfl

theorem Run.after_mk {α : Type} (t : List Event) (o : Outcome α) (u : List Event) (w : σ) :
    Run.after t ((o, u, w) : Run σ α) = (o, t ++ u, w) := rfl

theorem passAll_cons_some {α : Type} {step : α → σ → Outcome (Option GoError) × σ}
    {a : α} {rest : List α} {w wi : σ} (h : passAll step (a :: rest) w = some wi) :
    ∃ w1, step a w = (.ret none, w1) ∧ passAll step rest w1 = some wi := by
  unfold passAll at h
  split at h
  · next w1 heq => exact ⟨w1, heq, h⟩
  · cases h

theorem reconcileServices_fail (post : List (ServiceReconciler σ)) (s : ServiceReconciler σ)
    (e : GoError) (wi w' : σ) (hfail : s.Reconcile wi = (.ret (some e), w')) :
    ∀ (pre : List (ServiceReconciler σ)) (i : Nat) (w : σ),
      passAll ServiceReconciler.Reconcile pre w = some wi →
      reconcileServices (pre ++ s :: post) i w =
        (.ret (some (.wrap e ("failed to reconcile AzureManagedControlPlane service " ++ s.Name))),
          (List.range' i (pre.length + 1)).map Event.serviceReconcile, w')
  | [], i, w, h => by
    simp only [passAll, Option.some.injEq] at h
    subst h
    simp [reconcileServices, hfail, List.range']
  | a :: pre, i, w, h => by
    obtain ⟨w1, h1, h2⟩ := passAll_cons_some h
    have ih := reconcileServices_fail post s e wi w' hfail pre (i + 1) w1 h2
    simp [reconcileServices, h1, ih, Run.after_mk, List.range']

theorem reconcileServices_pass :
    ∀ (svcs : List (ServiceReconciler σ)) (i : Nat) (w w' : σ),
      passAll ServiceReconciler.Reconcile svcs w = some w' →
      reconcileServices svcs i w =
        (.ret none, (List.range' i svcs.length).map Event.serviceReconcile, w')
  | [], i, w, w', h => by
    simp only [passAll, Option.some.injEq] at h
    subst h
    simp [reconcileServices]
  | a :: svcs, i, w, w', h => by
    obtain ⟨w1, h1, h2⟩ := passAll_cons_some h
    have ih := reconcileServices_pass svcs (i + 1) w1 w' h2
    simp [reconcileServices, h1, ih, Run.after_mk, List.range']

end


/-! ## C1: `Reconcile` of the control plane service -/

section
variable {σ : Type}

theorem reconcileServices_trace :
    ∀ (svcs : List (ServiceReconciler σ)) (i : Nat) (w : σ),
      ∃ k, k ≤ svcs.length ∧
        (reconcileServices svcs i w).2.1 = (List.range' i k).map Event.serviceReconcile
  | [], i, w => ⟨0, by simp, by simp [reconcileServices]⟩
  | a :: svcs, i, w => by
    obtain ⟨k, hk, ih⟩ := reconcileServices_trace svcs (i + 1)  (a.Reconcile w).2
    unfold reconcileServices
    split
    · exact ⟨1, by simp, by simp [List.range']⟩
    · exact ⟨1, by simp, by simp [List.range']⟩
    · next w1 heq =>
      rw [heq] at ih
      exact ⟨k + 1, by simpa using hk, by simp [ih, List.range']⟩

theorem deletePagePools_noServiceCall (client : AgentPoolsClient σ) (rg cn : String)
    (poolMap : List String) :
    ∀ (pools : List AgentPool) (w : σ),
      ∀ ev ∈ (deletePagePools client rg cn poolMap pools w).2.1, ev.isServiceCall = false
  | [], w => by simp [deletePagePools]
  | pool :: rest, w => by
    unfold deletePagePools
    split
    · simp
    · split
      · exact deletePagePools_noServiceCall client rg cn poolMap rest w
      · split
        · simp [Event.isServiceCall]
        · next w1 _ =>
          have ih := deletePagePools_noServiceCall client rg cn poolMap rest w1
          simp only [Run.after_trace, List.mem_append]
          rintro ev (hev | hev)
          · simp at hev
            rcases hev with rfl | rfl <;> rfl
          · exact ih ev hev

theorem deletePage_noServiceCall (client : AgentPoolsClient σ) (rg cn : String)
    (poolMap : List String) (result : AgentPoolListResultPage) (w : σ)
    (next : σ → Run σ (Option GoError))
    (hnext : ∀ w1, ∀ ev ∈ (next w1).2.1, ev.isServiceCall = false) :
    ∀ ev ∈ (deletePage client rg cn poolMap result w next).2.1, ev.isServiceCall = false := by
  unfold deletePage
  have h := deletePagePools_noServiceCall client rg cn poolMap result.Values w
  split
  · split
    · next t w1 heq =>
      rw [heq] at h
      simp only [Run.after_trace]
      intro ev hev
      rcases List.mem_append.1 hev with hev | hev
      · rcases List.mem_append.1 hev with hev | hev
        · exact h ev hev
        · simp at hev; subst hev; rfl
      · exact hnext w1 ev hev
    · exact h
  · simp

theorem deletePages_noServiceCall (client : AgentPoolsClient σ) (rg cn : String)
    (poolMap : List String) :
    ∀ (pending : List (Except GoError (List AgentPool))) (current : List AgentPool) (w : σ),
      ∀ ev ∈ (deletePages client rg cn poolMap pending current w).2.1, ev.isServiceCall = false
  | [], current, w => by
    unfold deletePages
    exact deletePage_noServiceCall _ _ _ _ _ _ _ (by simp)
  | .error err :: rest, current, w => by
    unfold deletePages
    exact deletePage_noServiceCall _ _ _ _ _ _ _ (by simp)
  | .ok vs :: rest, current, w => by
    unfold deletePages
    exact deletePage_noServiceCall _ _ _ _ _ _ _
      (fun w1 => deletePages_noServiceCall client rg cn poolMap rest vs w1)

theorem deleteUnmanagedAgentPools_noServiceCall (r : azureManagedControlPlaneService σ) (w : σ) :
    ∀ ev ∈ (r.deleteUnmanagedAgentPools w).2.1, ev.isServiceCall = false := by
  unfold azureManagedControlPlaneService.deleteUnmanagedAgentPools
  simp only
  split
  · simp [Event.isServiceCall]
  · split
    · simp [Event.isServiceCall]
    · split
      · simp [Event.isServiceCall]
      · next result w2 _ =>
        simp only [Run.after_trace]
        intro ev hev
        rcases List.mem_append.1 hev with hev | hev
        · simp at hev
          rcases hev with rfl | rfl | rfl <;> rfl
        · exact deletePages_noServiceCall _ _ _ _ _ _ _ ev hev

theorem reconcileKubeconfig_noServiceCall (r : azureManagedControlPlaneService σ) (w : σ) :
    ∀ ev ∈ (r.reconcileKubeconfig w).2.1, ev.isServiceCall = false := by
  unfold azureManagedControlPlaneService.reconcileKubeconfig
  split
  · simp [Event.isServiceCall]
  · simp only
    split <;> simp [Event.isServiceCall]

/-- The calls of `Reconcile` are those of its loop over the services, followed by
calls that are not service invocations. -/
theorem Reconcile_trace_split (r : azureManagedControlPlaneService σ) (w : σ) :
    ∃ rest, (r.Reconcile w).2.1 = (reconcileServices r.services 0 w).2.1 ++ rest ∧
      ∀ ev ∈ rest, ev.isServiceCall = false := by
  unfold azureManagedControlPlaneService.Reconcile
  split
  · next t w1 heq =>
    rw [heq]
    have hk := reconcileKubeconfig_noServiceCall r w1
    split
    · next t2 w2 heq2 =>
      rw [heq2] at hk
      have hd := deleteUnmanagedAgentPools_noServiceCall r w2
      have key : ∀ ev ∈ t2 ++ (r.deleteUnmanagedAgentPools w2).2.1, ev.isServiceCall = false := by
        intro ev hev
        rcases List.mem_append.1 hev with hev | hev
        · exact hk ev hev
        · exact hd ev hev
      split <;> next t3 w3 heq3 =>
        rw [heq3] at key
        exact ⟨t2 ++ t3, by simp, key⟩
    · next t2 w2 heq2 =>
      rw [heq2] at hk
      exact ⟨t2, rfl, hk⟩
    · next t2 w2 heq2 =>
      rw [heq2] at hk
      exact ⟨t2, rfl, hk⟩
  · exact ⟨[], by simp, by simp⟩

end

section
variable {σ : Type}

theorem count_serviceReconcile_range (n j : Nat) (h : j < n) :
    ((List.range n).map Event.serviceReconcile).count (.serviceReconcile j) = 1 := by
  apply List.count_eq_one_of_mem
  · exact (List.nodup_range n).map (fun a b hab => by injection hab)
  · exact List.mem_map.2 ⟨j, List.mem_range.2 h, rfl⟩

theorem reconcileServices_fault (post : List (ServiceReconciler σ)) (s : ServiceReconciler σ)
    (wi w' : σ) (hfault : s.Reconcile wi = (.fault, w')) :
    ∀ (pre : List (ServiceReconciler σ)) (i : Nat) (w : σ),
      passAll ServiceReconciler.Reconcile pre w = some wi →
      reconcileServices (pre ++ s :: post) i w =
        (.fault, (List.range' i (pre.length + 1)).map Event.serviceReconcile, w')
  | [], i, w, h => by
    simp only [passAll, Option.some.injEq] at h
    subst h
    simp [reconcileServices, hfault, List.range']
  | a :: pre, i, w, h => by
    obtain ⟨w1, h1, h2⟩ := passAll_cons_some h
    have ih := reconcileServices_fault post s wi w' hfault pre (i + 1) w1 h2
    simp [reconcileServices, h1, ih, Run.after_mk, List.range']

theorem withoutServices_reconcileKubeconfig (r : azureManagedControlPlaneService σ) (w : σ) :
    r.withoutServices.reconcileKubeconfig w = r.reconcileKubeconfig w := rfl

theorem withoutServices_deleteUnmanagedAgentPools (r : azureManagedControlPlaneService σ)
    (w : σ) :
    r.withoutServices.deleteUnmanagedAgentPools w = r.deleteUnmanagedAgentPools w := rfl

/-- When every service returns nil, `Reconcile` is the services' calls in list
order followed by the run of what comes after the loop, in the world the
services left. -/
theorem Reconcile_of_pass (r : azureManagedControlPlaneService σ) (w w1 : σ)
    (hpass : passAll ServiceReconciler.Reconcile r.services w = some w1) :
    r.Reconcile w =
      Run.after ((List.range r.services.length).map Event.serviceReconcile)
        (r.withoutServices.Reconcile w1) := by
  have hloop := reconcileServices_pass r.services 0 w w1 hpass
  rw [← List.range_eq_range'] at hloop
  have h0 : reconcileServices r.withoutServices.services 0 w1 = (.ret none, [], w1) := rfl
  unfold azureManagedControlPlaneService.Reconcile
  rw [hloop, h0]
  simp only [withoutServices_reconcileKubeconfig, withoutServices_deleteUnmanagedAgentPools]
  rcases r.reconcileKubeconfig w1 with ⟨o, t2, w2⟩
  cases o with
  | fault => simp [Run.after]
  | ret a =>
    cases a with
    | some err => simp [Run.after]
    | none =>
      simp only
      rcases r.deleteUnmanagedAgentPools w2 with ⟨o3, t3, w3⟩
      cases o3 with
      | fault => simp [Run.after]
      | ret a3 => cases a3 <;> simp [Run.after]

/-- C1: `Reconcile` invokes the services' `Reconcile` in list order, before any
other call: its calls always are those of services `0 .. k-1`, in that order and
once each, followed by calls that are no service invocation.  When the service
at index `i` (the one after the services `pre`, which all return nil) is the
first whose `Reconcile` returns an error, the calls are exactly the invocations
of services `0 .. i` in order: each of them is invoked once, no service at a
greater index is invoked, and neither `reconcileKubeconfig` nor
`deleteUnmanagedAgentPools` is run.  When no service fails, every service of the
list is invoked once, in list order, and the run goes on, in the world the
services left, with `reconcileKubeconfig`.  When a service faults instead of
returning, the calls are those of the services up to it and the run faults. -/
theorem Reconcile_in_order_until_first_failure (r : azureManagedControlPlaneService σ) :
    (∀ w : σ, ∃ k rest, k ≤ r.services.length ∧
        (r.Reconcile w).2.1 = (List.range k).map Event.serviceReconcile ++ rest ∧
        ∀ ev ∈ rest, ev.isServiceCall = false) ∧
    (∀ (w wi w' : σ) (pre post : List (ServiceReconciler σ)) (s : ServiceReconciler σ)
        (e : GoError),
        r.services = pre ++ s :: post →
        passAll ServiceReconciler.Reconcile pre w = some wi →
        s.Reconcile wi = (.ret (some e), w') →
        (r.Reconcile w).2.1 = (List.range (pre.length + 1)).map Event.serviceReconcile ∧
        (∀ j, j ≤ pre.length → (r.Reconcile w).2.1.count (.serviceReconcile j) = 1) ∧
        (∀ j, pre.length < j → Event.serviceReconcile j ∉ (r.Reconcile w).2.1) ∧
        Event.reconcileKubeconfig ∉ (r.Reconcile w).2.1 ∧
        Event.deleteUnmanagedAgentPools ∉ (r.Reconcile w).2.1 ∧
        (∃ err, (r.Reconcile w).1 = .ret (some err)) ∧
        (r.Reconcile w).2.2 = w') ∧
    (∀ (w w1 : σ),
        passAll ServiceReconciler.Reconcile r.services w = some w1 →
        r.Reconcile w =
          Run.after ((List.range r.services.length).map Event.serviceReconcile)
            (r.withoutServices.Reconcile w1) ∧
        (∀ j, j < r.services.length → (r.Reconcile w).2.1.count (.serviceReconcile j) = 1) ∧
        (∃ rest, (r.Reconcile w).2.1 =
          (List.range r.services.length).map Event.serviceReconcile ++
            (r.reconcileKubeconfig w1).2.1 ++ rest ∧
          ∀ ev ∈ (r.reconcileKubeconfig w1).2.1 ++ rest, ev.isServiceCall = false)) ∧
    (∀ (w wi w' : σ) (pre post : List (ServiceReconciler σ)) (s : ServiceReconciler σ),
        r.services = pre ++ s :: post →
        passAll ServiceReconciler.Reconcile pre w = some wi →
        s.Reconcile wi = (.fault, w') →
        r.Reconcile w =
          (.fault, (List.range (pre.length + 1)).map Event.serviceReconcile, w')) := by
  refine ⟨fun w => ?_, ?_, ?_, ?_⟩
  · obtain ⟨rest, hsplit, hrest⟩ := Reconcile_trace_split r w
    obtain ⟨k, hk, htr⟩ := reconcileServices_trace r.services 0 w
    exact ⟨k, rest, hk, by rw [hsplit, htr, List.range_eq_range'], hrest⟩
  · intro w wi w' pre post s e hsplit hpre hfail
    have hloop := reconcileServices_fail post s e wi w' hfail pre 0 w hpre
    rw [← hsplit, ← List.range_eq_range'] at hloop
    have hrun : r.Reconcile w =
        (.ret (some (.wrap e ("failed to reconcile AzureManagedControlPlane service " ++ s.Name))),
          (List.range (pre.length + 1)).map Event.serviceReconcile, w') := by
      unfold azureManagedControlPlaneService.Reconcile
      rw [hloop]
    rw [hrun]
    refine ⟨rfl, ?_, ?_, ?_, ?_, ⟨_, rfl⟩, rfl⟩
    · intro j hj
      exact count_serviceReconcile_range _ _ (by omega)
    · intro j hj hmem
      simp only [List.mem_map, List.mem_range] at hmem
      obtain ⟨a, ha, hEq⟩ := hmem
      injection hEq with hEq
      omega
    · simp
    · simp
  · intro w w1 hpass
    have hrun := Reconcile_of_pass r w w1 hpass
    obtain ⟨tail, htail, hno⟩ := Reconcile_trace_split r.withoutServices w1
    have h0 : (reconcileServices r.withoutServices.services 0 w1).2.1 = [] := rfl
    rw [h0, List.nil_append] at htail
    have hkube : ∃ rest, (r.withoutServices.Reconcile w1).2.1 =
        (r.reconcileKubeconfig w1).2.1 ++ rest := by
      have h1 : reconcileServices r.withoutServices.services 0 w1 = (.ret none, [], w1) := rfl
      unfold azureManagedControlPlaneService.Reconcile
      rw [h1]
      simp only [withoutServices_reconcileKubeconfig, withoutServices_deleteUnmanagedAgentPools]
      rcases r.reconcileKubeconfig w1 with ⟨o, t2, w2⟩
      cases o with
      | fault => exact ⟨[], by simp⟩
      | ret a =>
        cases a with
        | some err => exact ⟨[], by simp⟩
        | none =>
          simp only
          rcases r.deleteUnmanagedAgentPools w2 with ⟨o3, t3, w3⟩
          cases o3 with
          | fault => exact ⟨t3, by simp⟩
          | ret a3 => cases a3 <;> exact ⟨t3, by simp⟩
    refine ⟨hrun, ?_, ?_⟩
    · intro j hj
      rw [hrun, Run.after_trace, List.count_append, count_serviceReconcile_range _ _ hj]
      have hz : (r.withoutServices.Reconcile w1).2.1.count (.serviceReconcile j) = 0 := by
        apply List.count_eq_zero.2
        intro hmem
        rw [htail] at hmem
        have := hno _ hmem
        simp [Event.isServiceCall] at this
      rw [hz]
    · obtain ⟨rest, hrest⟩ := hkube
      refine ⟨rest, ?_, ?_⟩
      · rw [hrun, Run.after_trace, hrest, List.append_assoc]
      · intro ev hev
        rw [← hrest, htail] at hev
        exact hno ev hev
  · intro w wi w' pre post s hsplit hpre hfault
    have hloop := reconcileServices_fault post s wi w' hfault pre 0 w hpre
    rw [← hsplit, ← List.range_eq_range'] at hloop
    unfold azureManagedControlPlaneService.Reconcile
    rw [hloop]

end

/-- C1 on services `A`, `B`, `C` where `B` fails: `A` and `B` are invoked, `C` and
the two later steps are not; and on services `A`, `C`, which both succeed: both
are invoked, in that order, and the run goes on with the later steps. -/
theorem Reconcile_in_order_until_first_failure_witness :
    (Example.controller [Example.serviceA, Example.serviceB, Example.serviceC]).services =
      [Example.serviceA] ++ Example.serviceB :: [Example.serviceC] ∧
    passAll ServiceReconciler.Reconcile [Example.serviceA] 0 = some 1 ∧
    Example.serviceB.Reconcile 1 = (.ret (some (.errorf "quota exceeded")), 2) ∧
    ((Example.controller [Example.serviceA, Example.serviceB, Example.serviceC]).Reconcile 0).2.1 =
      [.serviceReconcile 0, .serviceReconcile 1] ∧
    Event.serviceReconcile 2 ∉
      ((Example.controller [Example.serviceA, Example.serviceB, Example.serviceC]).Reconcile 0).2.1 ∧
    Event.reconcileKubeconfig ∉
      ((Example.controller [Example.serviceA, Example.serviceB, Example.serviceC]).Reconcile 0).2.1 ∧
    Event.deleteUnmanagedAgentPools ∉
      ((Example.controller [Example.serviceA, Example.serviceB, Example.serviceC]).Reconcile 0).2.1 ∧
    passAll ServiceReconciler.Reconcile
      (Example.controller [Example.serviceA, Example.serviceC]).services 0 = some 2 ∧
    (Example.controller [Example.serviceA, Example.serviceC]).Reconcile 0 =
      (.ret none,
        [.serviceReconcile 0, .serviceReconcile 1, .reconcileKubeconfig,
          .deleteUnmanagedAgentPools, .kubeclientList, .agentPoolsList,
          .log "start delete node group", .agentPoolsDelete "np1" none, .agentPoolsNext,
          .log "start delete node group", .agentPoolsDelete "np2" none, .agentPoolsNext],
        6) :=
  have h := (Reconcile_in_order_until_first_failure
    (Example.controller [Example.serviceA, Example.serviceB, Example.serviceC])).2.1 0 1 2
    [Example.serviceA] [Example.serviceC] Example.serviceB (.errorf "quota exceeded") rfl rfl rfl
  have h2 := (Reconcile_in_order_until_first_failure
    (Example.controller [Example.serviceA, Example.serviceC])).2.2.1 0 2 rfl
  ⟨rfl, rfl, rfl, h.1, h.2.2.1 2 (by decide), h.2.2.2.1, h.2.2.2.2.1, rfl, h2.1⟩


/-! ## C2, C3: `Delete` of the control plane service, and the errors returned -/

section
variable {σ : Type}

theorem passAll_cons_of {α : Type} {step : α → σ → Outcome (Option GoError) × σ}
    {a : α} {rest : List α} {w w1 : σ} (h : step a w = (.ret none, w1)) :
    passAll step (a :: rest) w = passAll step rest w1 := by
  simp [passAll, h]

theorem take_succ_of_getElem? {α : Type} {l : List α} {k : Nat} {a : α} (h : l[k]? = some a) :
    l.take (k + 1) = l.take k ++ [a] := by
  rw [List.take_succ, h]; rfl

theorem deleteServices_pass (svcs : List (ServiceReconciler σ)) :
    ∀ (k : Nat), k ≤ svcs.length → ∀ (w w' : σ),
      passAll ServiceReconciler.Delete (svcs.take k).reverse w = some w' →
      deleteServices svcs k w =
        (.ret none, (List.range k).reverse.map Event.serviceDelete, w')
  | 0, _, w, w', h => by
    simp only [List.take_zero, List.reverse_nil, passAll, Option.some.injEq] at h
    subst h
    simp [deleteServices]
  | k + 1, hk, w, w', h => by
    have hlt : k < svcs.length := by omega
    have hs : svcs[k]? = some svcs[k] := List.getElem?_eq_getElem hlt
    rw [take_succ_of_getElem? hs, List.reverse_append] at h
    obtain ⟨w1, h1, h2⟩ := passAll_cons_some h
    have ih := deleteServices_pass svcs k (by omega) w1 w' h2
    simp [deleteServices, hs, h1, ih, Run.after_mk, List.range_succ]

theorem deleteServices_fail (pre post : List (ServiceReconciler σ)) (s : ServiceReconciler σ)
    (e : GoError) (wi w' : σ) (hfail : s.Delete wi = (.ret (some e), w')) :
    ∀ (m : Nat), m ≤ post.length → ∀ (w : σ),
      passAll ServiceReconciler.Delete (post.take m).reverse w = some wi →
      deleteServices (pre ++ s :: post) (pre.length + 1 + m) w =
        (.ret (some (.wrap e ("failed to delete AzureManagedControlPlane service " ++ s.Name))),
          (List.range' pre.length (m + 1)).reverse.map Event.serviceDelete, w')
  | 0, _, w, h => by
    simp only [List.take_zero, List.reverse_nil, passAll, Option.some.injEq] at h
    subst h
    have hs : (pre ++ s :: post)[pre.length]? = some s := by
      rw [List.getElem?_append_right (Nat.le_refl _)]; simp
    have h0 : pre.length + 1 + 0 = pre.length + 1 := rfl
    rw [h0]
    unfold deleteServices
    rw [hs]
    simp [hfail, List.range']
  | m + 1, hm, w, h => by
    have hlt : m < post.length := by omega
    have hp : post[m]? = some post[m] := List.getElem?_eq_getElem hlt
    rw [take_succ_of_getElem? hp, List.reverse_append] at h
    obtain ⟨w1, h1, h2⟩ := passAll_cons_some h
    have ih := deleteServices_fail pre post s e wi w' hfail m (by omega) w1 h2
    have hs : (pre ++ s :: post)[pre.length + 1 + m]? = some post[m] := by
      rw [List.getElem?_append_right (by omega)]
      have : pre.length + 1 + m - pre.length = m + 1 := by omega
      rw [this]
      simp
    have hidx : pre.length + 1 + (m + 1) = (pre.length + 1 + m) + 1 := by omega
    rw [hidx]
    unfold deleteServices
    rw [hs]
    simp only [h1, ih, Run.after_mk]
    rw [List.range'_concat pre.length (m + 1)]
    have h5 : pre.length + 1 * (m + 1) = pre.length + 1 + m := by omega
    rw [h5]
    simp

theorem deleteServices_trace (svcs : List (ServiceReconciler σ)) :
    ∀ (k : Nat), k ≤ svcs.length → ∀ (w : σ),
      ∃ j, j ≤ k ∧
        (deleteServices svcs k w).2.1 = (List.range' j (k - j)).reverse.map Event.serviceDelete
  | 0, _, w => ⟨0, by simp, by simp [deleteServices]⟩
  | k + 1, hk, w => by
    have hlt : k < svcs.length := by omega
    have hs : svcs[k]? = some svcs[k] := List.getElem?_eq_getElem hlt
    obtain ⟨j, hj, ih⟩ := deleteServices_trace svcs k (by omega) (svcs[k].Delete w).2
    unfold deleteServices
    rw [hs]
    simp only
    split
    · exact ⟨k, by omega, by simp [List.range']⟩
    · exact ⟨k, by omega, by simp [List.range']⟩
    · next w1 heq =>
      rw [heq] at ih
      refine ⟨j, by omega, ?_⟩
      have hsub : k + 1 - j = (k - j) + 1 := by omega
      rw [hsub, List.range'_concat, Run.after_trace, ih]
      have h5 : j + 1 * (k - j) = k := by omega
      rw [h5]
      simp

theorem deleteServices_inv (svcs : List (ServiceReconciler σ)) :
    ∀ (k : Nat), k ≤ svcs.length → ∀ (w : σ) (err : GoError),
      (deleteServices svcs k w).1 = .ret (some err) →
      ∃ (pre post : List (ServiceReconciler σ)) (s : ServiceReconciler σ) (wi w' : σ)
        (e : GoError),
        svcs.take k = pre ++ s :: post ∧
        passAll ServiceReconciler.Delete post.reverse w = some wi ∧
        s.Delete wi = (.ret (some e), w') ∧
        err = .wrap e ("failed to delete AzureManagedControlPlane service " ++ s.Name)
  | 0, _, w, err, h => by simp [deleteServices] at h
  | k + 1, hk, w, err, h => by
    have hlt : k < svcs.length := by omega
    have hs : svcs[k]? = some svcs[k] := List.getElem?_eq_getElem hlt
    unfold deleteServices at h
    rw [hs] at h
    simp only at h
    split at h
    · cases h
    · next e w1 heq =>
      simp only [Outcome.ret.injEq, Option.some.injEq] at h
      exact ⟨svcs.take k, [], svcs[k], w, w1, e, take_succ_of_getElem? hs, rfl, heq, h.symm⟩
    · next w1 heq =>
      simp only [Run.after_fst] at h
      obtain ⟨pre, post, s, wi, w', e, h1, h2, h3, h4⟩ :=
        deleteServices_inv svcs k (by omega) w1 err h
      refine ⟨pre, post ++ [svcs[k]], s, wi, w', e, ?_, ?_, h3, h4⟩
      · rw [take_succ_of_getElem? hs, h1]; simp
      · rw [List.reverse_append]
        simpa [passAll, heq] using h2

theorem reconcileServices_inv :
    ∀ (svcs : List (ServiceReconciler σ)) (i : Nat) (w : σ) (err : GoError),
      (reconcileServices svcs i w).1 = .ret (some err) →
      ∃ (pre post : List (ServiceReconciler σ)) (s : ServiceReconciler σ) (wi w' : σ)
        (e : GoError),
        svcs = pre ++ s :: post ∧
        passAll ServiceReconciler.Reconcile pre w = some wi ∧
        s.Reconcile wi = (.ret (some e), w') ∧
        err = .wrap e ("failed to reconcile AzureManagedControlPlane service " ++ s.Name)
  | [], i, w, err, h => by simp [reconcileServices] at h
  | a :: svcs, i, w, err, h => by
    unfold reconcileServices at h
    split at h
    · cases h
    · next e w1 heq =>
      simp only [Outcome.ret.injEq, Option.some.injEq] at h
      exact ⟨[], svcs, a, w, w1, e, rfl, rfl, heq, h.symm⟩
    · next w1 heq =>
      simp only [Run.after_fst] at h
      obtain ⟨pre, post, s, wi, w', e, h1, h2, h3, h4⟩ :=
        reconcileServices_inv svcs (i + 1) w1 err h
      refine ⟨a :: pre, post, s, wi, w', e, by simp [h1], ?_, h3, h4⟩
      rw [passAll_cons_of heq]; exact h2

end

section
variable {σ : Type}

theorem count_serviceDelete_range' (i m j : Nat) (h1 : i ≤ j) (h2 : j < i + m) :
    ((List.range' i m).reverse.map Event.serviceDelete).count (.serviceDelete j) = 1 := by
  apply List.count_eq_one_of_mem
  · exact (List.nodup_reverse.2 (List.nodup_range' i m)).map (fun a b hab => by injection hab)
  · exact List.mem_map.2 ⟨j, by simp [List.mem_range'_1]; omega, rfl⟩

theorem reconcileKubeconfig_marker (r : azureManagedControlPlaneService σ) (w : σ) :
    Event.reconcileKubeconfig ∈ (r.reconcileKubeconfig w).2.1 := by
  unfold azureManagedControlPlaneService.reconcileKubeconfig
  split
  · simp
  · simp only
    split <;> simp

/-- C2: `Delete` invokes the services' `Delete` from the last service down: its
calls always are the invocations of services `n-1, n-2, .., j` for some `j`, in
that order and once each.  When the service at index `i` (the one before the
services `post`, which all return nil when deleted last to first) is the first
whose `Delete` returns an error, the calls are the invocations of services
`n-1 .. i`, no service at an index below `i` is invoked, and an error is
returned.  When no `Delete` fails, every service is invoked once, last to
first, and nil is returned. -/
theorem Delete_reverse_order_until_first_failure (r : azureManagedControlPlaneService σ) :
    (∀ w : σ, ∃ j, j ≤ r.services.length ∧
        (r.Delete w).2.1 =
          (List.range' j (r.services.length - j)).reverse.map Event.serviceDelete) ∧
    (∀ (w wi w' : σ) (pre post : List (ServiceReconciler σ)) (s : ServiceReconciler σ)
        (e : GoError),
        r.services = pre ++ s :: post →
        passAll ServiceReconciler.Delete post.reverse w = some wi →
        s.Delete wi = (.ret (some e), w') →
        (r.Delete w).2.1 =
          (List.range' pre.length (post.length + 1)).reverse.map Event.serviceDelete ∧
        (∀ j, j < pre.length → Event.serviceDelete j ∉ (r.Delete w).2.1) ∧
        (∀ j, pre.length ≤ j → j < r.services.length →
          (r.Delete w).2.1.count (.serviceDelete j) = 1) ∧
        (∃ err, (r.Delete w).1 = .ret (some err)) ∧
        (r.Delete w).2.2 = w') ∧
    (∀ (w w' : σ),
        passAll ServiceReconciler.Delete r.services.reverse w = some w' →
        r.Delete w =
          (.ret none, (List.range r.services.length).reverse.map Event.serviceDelete, w') ∧
        (∀ j, j < r.services.length → (r.Delete w).2.1.count (.serviceDelete j) = 1)) := by
  refine ⟨fun w => ?_, ?_, ?_⟩
  · exact deleteServices_trace r.services r.services.length (Nat.le_refl _) w
  · intro w wi w' pre post s e hsplit hpost hfail
    have hrun := deleteServices_fail pre post s e wi w' hfail post.length (Nat.le_refl _) w
      (by simpa using hpost)
    have hlen : r.services.length = pre.length + 1 + post.length := by
      rw [hsplit]; simp; omega
    have hrun2 : r.Delete w =
        (.ret (some (.wrap e ("failed to delete AzureManagedControlPlane service " ++ s.Name))),
          (List.range' pre.length (post.length + 1)).reverse.map Event.serviceDelete, w') := by
      unfold azureManagedControlPlaneService.Delete
      rw [hlen, hsplit]
      exact hrun
    rw [hrun2]
    refine ⟨rfl, ?_, ?_, ⟨_, rfl⟩, rfl⟩
    · intro j hj hmem
      simp only [List.mem_map, List.mem_reverse, List.mem_range'_1] at hmem
      obtain ⟨a, ha, hEq⟩ := hmem
      injection hEq with hEq
      omega
    · intro j hj1 hj2
      exact count_serviceDelete_range' _ _ _ hj1 (by omega)
  · intro w w' hall
    have hrun := deleteServices_pass r.services r.services.length (Nat.le_refl _) w w'
      (by simpa using hall)
    have hrun2 : r.Delete w =
        (.ret none, (List.range r.services.length).reverse.map Event.serviceDelete, w') := hrun
    rw [hrun2]
    refine ⟨rfl, ?_⟩
    intro j hj
    rw [List.range_eq_range']
    exact count_serviceDelete_range' 0 _ _ (Nat.zero_le _) (by omega)

/-- C3: when a service is the first to fail, the error `Reconcile` (resp.
`Delete`) returns is the one `errors.Wrapf` builds around the error of that one
service, with the message "failed to reconcile (resp. delete)
AzureManagedControlPlane service" followed by the service's `Name()`; its text
is that message, a colon and the text of the service's error, and nothing of any
other service is in it.  Conversely every error returned by `Delete`, and every
error returned by `Reconcile` before `reconcileKubeconfig` is run, is such a
wrapping of the error of the first failing service. -/
theorem service_failure_wrapped_with_name (r : azureManagedControlPlaneService σ) :
    (∀ (w wi w' : σ) (pre post : List (ServiceReconciler σ)) (s : ServiceReconciler σ)
        (e : GoError),
        r.services = pre ++ s :: post →
        passAll ServiceReconciler.Reconcile pre w = some wi →
        s.Reconcile wi = (.ret (some e), w') →
        ∃ err, (r.Reconcile w).1 = .ret (some err) ∧
          err = .wrap e ("failed to reconcile AzureManagedControlPlane service " ++ s.Name) ∧
          err.Error =
            "failed to reconcile AzureManagedControlPlane service " ++ s.Name ++ (": " ++ e.Error)) ∧
    (∀ (w wi w' : σ) (pre post : List (ServiceReconciler σ)) (s : ServiceReconciler σ)
        (e : GoError),
        r.services = pre ++ s :: post →
        passAll ServiceReconciler.Delete post.reverse w = some wi →
        s.Delete wi = (.ret (some e), w') →
        ∃ err, (r.Delete w).1 = .ret (some err) ∧
          err = .wrap e ("failed to delete AzureManagedControlPlane service " ++ s.Name) ∧
          err.Error =
            "failed to delete AzureManagedControlPlane service " ++ s.Name ++ (": " ++ e.Error)) ∧
    (∀ (w : σ) (err : GoError),
        (r.Reconcile w).1 = .ret (some err) →
        Event.reconcileKubeconfig ∉ (r.Reconcile w).2.1 →
        ∃ (pre post : List (ServiceReconciler σ)) (s : ServiceReconciler σ) (wi w' : σ)
          (e : GoError),
          r.services = pre ++ s :: post ∧
          passAll ServiceReconciler.Reconcile pre w = some wi ∧
          s.Reconcile wi = (.ret (some e), w') ∧
          err = .wrap e ("failed to reconcile AzureManagedControlPlane service " ++ s.Name)) ∧
    (∀ (w : σ) (err : GoError),
        (r.Delete w).1 = .ret (some err) →
        ∃ (pre post : List (ServiceReconciler σ)) (s : ServiceReconciler σ) (wi w' : σ)
          (e : GoError),
          r.services = pre ++ s :: post ∧
          passAll ServiceReconciler.Delete post.reverse w = some wi ∧
          s.Delete wi = (.ret (some e), w') ∧
          err = .wrap e ("failed to delete AzureManagedControlPlane service " ++ s.Name)) := by
  refine ⟨?_, ?_, ?_, ?_⟩
  · intro w wi w' pre post s e hsplit hpre hfail
    have hloop := reconcileServices_fail post s e wi w' hfail pre 0 w hpre
    rw [← hsplit] at hloop
    refine ⟨_, ?_, rfl, ?_⟩
    · unfold azureManagedControlPlaneService.Reconcile
      rw [hloop]
    · simp [GoError.Error, String.append_assoc]
  · intro w wi w' pre post s e hsplit hpost hfail
    have hrun := deleteServices_fail pre post s e wi w' hfail post.length (Nat.le_refl _) w
      (by simpa using hpost)
    have hlen : r.services.length = pre.length + 1 + post.length := by
      rw [hsplit]; simp; omega
    refine ⟨_, ?_, rfl, ?_⟩
    · unfold azureManagedControlPlaneService.Delete
      rw [hlen, hsplit, hrun]
    · simp [GoError.Error, String.append_assoc]
  · intro w err herr hno
    unfold azureManagedControlPlaneService.Reconcile at herr hno
    split at herr
    · next t w1 heq =>
      exfalso
      rw [heq] at hno
      have hm := reconcileKubeconfig_marker r w1
      simp only at hno
      split at hno
      · next t2 w2 heq2 =>
        rw [heq2] at hm
        split at hno <;> exact hno (by simp [hm])
      · next t2 w2 heq2 =>
        rw [heq2] at hm
        exact hno (by simp [hm])
      · next t2 w2 heq2 =>
        rw [heq2] at hm
        exact hno (by simp [hm])
    · exact reconcileServices_inv r.services 0 w err herr
  · intro w err herr
    obtain ⟨pre, post, s, wi, w', e, h1, h2, h3, h4⟩ :=
      deleteServices_inv r.services r.services.length (Nat.le_refl _) w err herr
    exact ⟨pre, post, s, wi, w', e, by simpa using h1, h2, h3, h4⟩

end

/-- C2 on services `A`, `B`, `C` where `B` fails: `C` then `B` are deleted, `A` is not; and on `A`, `C`, which both succeed. -/
theorem Delete_reverse_order_until_first_failure_witness :
    (Example.controller [Example.serviceA, Example.serviceB, Example.serviceC]).services =
      [Example.serviceA] ++ Example.serviceB :: [Example.serviceC] ∧
    passAll ServiceReconciler.Delete [Example.serviceC].reverse 0 = some 1 ∧
    Example.serviceB.Delete 1 = (.ret (some (.errorf "still in use")), 2) ∧
    ((Example.controller [Example.serviceA, Example.serviceB, Example.serviceC]).Delete 0).2.1 =
      [.serviceDelete 2, .serviceDelete 1] ∧
    Event.serviceDelete 0 ∉
      ((Example.controller [Example.serviceA, Example.serviceB, Example.serviceC]).Delete 0).2.1 ∧
    passAll ServiceReconciler.Delete
      (Example.controller [Example.serviceA, Example.serviceC]).services.reverse 0 = some 2 ∧
    (Example.controller [Example.serviceA, Example.serviceC]).Delete 0 =
      (.ret none, [.serviceDelete 1, .serviceDelete 0], 2) :=
  have h := (Delete_reverse_order_until_first_failure
    (Example.controller [Example.serviceA, Example.serviceB, Example.serviceC])).2.1 0 1 2
    [Example.serviceA] [Example.serviceC] Example.serviceB (.errorf "still in use") rfl rfl rfl
  have h2 := (Delete_reverse_order_until_first_failure
    (Example.controller [Example.serviceA, Example.serviceC])).2.2 0 2 rfl
  ⟨rfl, rfl, rfl, h.1, h.2.1 0 (by decide), rfl, h2.1⟩

/-- C3 on services `A`, `B`, `C` where `B` fails: the error returned wraps the error of `B` and names `B`. -/
theorem service_failure_wrapped_with_name_witness :
    (Example.controller [Example.serviceA, Example.serviceB, Example.serviceC]).services =
      [Example.serviceA] ++ Example.serviceB :: [Example.serviceC] ∧
    passAll ServiceReconciler.Reconcile [Example.serviceA] 0 = some 1 ∧
    Example.serviceB.Reconcile 1 = (.ret (some (.errorf "quota exceeded")), 2) ∧
    (∃ err,
      ((Example.controller [Example.serviceA, Example.serviceB, Example.serviceC]).Reconcile 0).1 =
        .ret (some err) ∧
      err = .wrap (.errorf "quota exceeded")
        "failed to reconcile AzureManagedControlPlane service B" ∧
      err.Error = "failed to reconcile AzureManagedControlPlane service B: quota exceeded") ∧
    passAll ServiceReconciler.Delete [Example.serviceC].reverse 0 = some 1 ∧
    Example.serviceB.Delete 1 = (.ret (some (.errorf "still in use")), 2) ∧
    (∃ err,
      ((Example.controller [Example.serviceA, Example.serviceB, Example.serviceC]).Delete 0).1 =
        .ret (some err) ∧
      err = .wrap (.errorf "still in use")
        "failed to delete AzureManagedControlPlane service B" ∧
      err.Error = "failed to delete AzureManagedControlPlane service B: still in use") :=
  have h := service_failure_wrapped_with_name
    (Example.controller [Example.serviceA, Example.serviceB, Example.serviceC])
  ⟨rfl, rfl, rfl,
    h.1 0 1 2 [Example.serviceA] [Example.serviceC] Example.serviceB (.errorf "quota exceeded")
      rfl rfl rfl,
    rfl, rfl,
    h.2.1 0 1 2 [Example.serviceA] [Example.serviceC] Example.serviceB (.errorf "still in use")
      rfl rfl rfl⟩


/-! ## C4: `Reconcile` of the role assignment service -/

section
variable {σ : Type}

theorem calls_append (t u : List Event) : calls (t ++ u) = calls t ++ calls u := by
  simp [calls]

theorem calls_nil : calls [] = [] := rfl

theorem calls_cons_log (msg : String) (t : List Event) : calls (.log msg :: t) = calls t := by
  simp [calls, Event.isLog]

theorem calls_cons_createOrUpdateResource (a b : String) (c : Option GoError) (t : List Event) :
    calls (.createOrUpdateResource a b c :: t) = .createOrUpdateResource a b c :: calls t := by
  simp [calls, Event.isLog]

theorem calls_cons_deleteResource (a b : String) (c : Option GoError) (t : List Event) :
    calls (.deleteResource a b c :: t) = .deleteResource a b c :: calls t := by
  simp [calls, Event.isLog]

theorem calls_cons_managedClustersGet (t : List Event) :
    calls (.managedClustersGet :: t) = .managedClustersGet :: calls t := by
  simp [calls, Event.isLog]

theorem calls_emptyNameWarning (spec : ResourceSpecGetter) :
    calls (managedroleassignments.emptyNameWarning spec) = [] := by
  unfold managedroleassignments.emptyNameWarning
  split <;> simp [calls, Event.isLog]

theorem not_mem_emptyNameWarning (spec : ResourceSpecGetter) (ev : Event)
    (h : ev.isLog = false) : ev ∉ managedroleassignments.emptyNameWarning spec := by
  unfold managedroleassignments.emptyNameWarning
  split
  · intro hmem
    simp at hmem
    subst hmem
    simp [Event.isLog] at h
  · simp

namespace managedroleassignments

theorem reconcileSpecs_append (s : Service σ) (rest : List ResourceSpecGetter) :
    ∀ (pre : List ResourceSpecGetter) (w wi : σ),
      passAll s.createStep pre w = some wi →
      (s.reconcileSpecs (pre ++ rest) w).1 = (s.reconcileSpecs rest wi).1 ∧
      calls (s.reconcileSpecs (pre ++ rest) w).2.1 =
        pre.map createdEvent ++ calls (s.reconcileSpecs rest wi).2.1 ∧
      (s.reconcileSpecs (pre ++ rest) w).2.2 = (s.reconcileSpecs rest wi).2.2
  | [], w, wi, h => by
    simp only [passAll, Option.some.injEq] at h
    subst h
    simp
  | a :: pre, w, wi, h => by
    obtain ⟨w1, h1, h2⟩ := passAll_cons_some h
    obtain ⟨ih1, ih2, ih3⟩ := reconcileSpecs_append s rest pre w1 wi h2
    rcases hc : s.CreateOrUpdateResource a serviceName w with ⟨⟨v, oe⟩, wc⟩
    simp only [Service.createStep, hc, Prod.mk.injEq, Outcome.ret.injEq] at h1
    obtain ⟨rfl, rfl⟩ := h1
    simp only [List.cons_append, Service.reconcileSpecs, hc, Run.after_fst, Run.after_trace,
      Run.after_world, calls_append, calls_emptyNameWarning, List.map_cons,
      calls_cons_log, calls_cons_createOrUpdateResource, calls_nil, List.nil_append,
      List.append_eq]
    exact ⟨ih1, by rw [ih2]; rfl, ih3⟩

theorem reconcileSpecs_head (s : Service σ) (spec : ResourceSpecGetter)
    (post : List ResourceSpecGetter) (w : σ) :
    ∃ tl, calls (s.reconcileSpecs (spec :: post) w).2.1 =
      Event.createOrUpdateResource spec.ResourceName serviceName
        (s.CreateOrUpdateResource spec serviceName w).1.2 :: tl := by
  rcases hc : s.CreateOrUpdateResource spec serviceName w with ⟨⟨v, oe⟩, wc⟩
  cases oe with
  | none =>
    refine ⟨calls (s.reconcileSpecs post wc).2.1, ?_⟩
    simp only [Service.reconcileSpecs, hc, Run.after_trace, calls_append, calls_emptyNameWarning,
      calls_cons_log, calls_cons_createOrUpdateResource, calls_nil, List.nil_append,
      List.cons_append]
  | some err =>
    refine ⟨[], ?_⟩
    simp only [Service.reconcileSpecs, hc, calls_append, calls_emptyNameWarning,
      calls_cons_log, calls_cons_createOrUpdateResource, calls_nil, List.nil_append,
      List.cons_append]

theorem reconcileSpecs_error_iff (s : Service σ) :
    ∀ (specs : List ResourceSpecGetter) (w : σ),
      ((∃ err, (s.reconcileSpecs specs w).1 = .ret (some err)) ↔
        ∃ name err, Event.createOrUpdateResource name serviceName (some err) ∈
          (s.reconcileSpecs specs w).2.1) ∧
      (s.reconcileSpecs specs w).1 ≠ .fault
  | [], w => by simp [Service.reconcileSpecs]
  | a :: specs, w => by
    rcases hc : s.CreateOrUpdateResource a serviceName w with ⟨⟨v, oe⟩, wc⟩
    cases oe with
    | some err =>
      simp only [Service.reconcileSpecs, hc]
      refine ⟨⟨fun _ => ⟨a.ResourceName, err, by simp⟩, fun _ => ⟨_, rfl⟩⟩, by simp⟩
    | none =>
      obtain ⟨ih, ihf⟩ := reconcileSpecs_error_iff s specs wc
      simp only [Service.reconcileSpecs, hc, Run.after_fst, Run.after_trace]
      refine ⟨?_, ihf⟩
      rw [ih]
      constructor
      · rintro ⟨name, err, hmem⟩
        exact ⟨name, err, List.mem_append_right _ hmem⟩
      · rintro ⟨name, err, hmem⟩
        refine ⟨name, err, ?_⟩
        rcases List.mem_append.1 hmem with hmem | hmem
        · exfalso
          rcases List.mem_append.1 hmem with hmem | hmem
          · rcases List.mem_append.1 hmem with hmem | hmem
            · simp at hmem
            · exact not_mem_emptyNameWarning a _ (by rfl) hmem
          · simp at hmem
        · exact hmem

end managedroleassignments
end

section
variable {σ : Type}
namespace managedroleassignments

theorem getManagedClusterPrincipalID_trace (s : Service σ) (w : σ) :
    (s.getManagedClusterPrincipalID w).2.1 =
      [.log "fetching principal ID for ManagedCluster", .managedClustersGet] := by
  unfold Service.getManagedClusterPrincipalID
  split
  · rfl
  · split
    · split <;> rfl
    · rfl

theorem Reconcile_of_lookup (s : Service σ) (w w0 : σ) (pid : Option String) (t0 : List Event)
    (hl : s.getManagedClusterPrincipalID w = (.ret (pid, none), t0, w0)) :
    s.Reconcile w =
      Run.after [.log "reconciling role assignment",
          .log "fetching principal ID for ManagedCluster", .managedClustersGet]
        (s.reconcileSpecs (s.RoleAssignmentSpecs pid w0) w0) := by
  have ht := getManagedClusterPrincipalID_trace s w
  rw [hl] at ht
  simp only at ht
  subst ht
  simp [Service.Reconcile, hl]

end managedroleassignments

open managedroleassignments

/-- C4: the role assignment `Reconcile` returns an error exactly when the lookup
of the managed cluster's principal ID returns one or a `CreateOrUpdateResource`
call it made returned one; nothing else, an empty `ResourceName()` included,
makes it fail.  Every spec that is reached (all specs before it were created
without error) is passed to `CreateOrUpdateResource`, whatever its name, and
when all calls succeed every spec of the list is passed, in list order, and nil
is returned. -/
theorem roleassignments_Reconcile_fails_only_on_lookup_or_create (s : Service σ) (w : σ) :
    ((∃ err, (s.Reconcile w).1 = .ret (some err)) ↔
      ((∃ pid err, (s.getManagedClusterPrincipalID w).1 = .ret (pid, some err)) ∨
        ∃ name err, Event.createOrUpdateResource name serviceName (some err) ∈
          (s.Reconcile w).2.1)) ∧
    (∀ (pid : Option String) (t0 : List Event) (w0 wi : σ)
        (pre post : List ResourceSpecGetter) (spec : ResourceSpecGetter),
        s.getManagedClusterPrincipalID w = (.ret (pid, none), t0, w0) →
        s.RoleAssignmentSpecs pid w0 = pre ++ spec :: post →
        passAll s.createStep pre w0 = some wi →
        ∃ tl, calls (s.Reconcile w).2.1 =
          .managedClustersGet :: (pre.map createdEvent ++
            .createOrUpdateResource spec.ResourceName serviceName
              (s.CreateOrUpdateResource spec serviceName wi).1.2 :: tl)) ∧
    (∀ (pid : Option String) (t0 : List Event) (w0 w' : σ),
        s.getManagedClusterPrincipalID w = (.ret (pid, none), t0, w0) →
        passAll s.createStep (s.RoleAssignmentSpecs pid w0) w0 = some w' →
        (s.Reconcile w).1 = .ret none ∧
        calls (s.Reconcile w).2.1 =
          .managedClustersGet :: (s.RoleAssignmentSpecs pid w0).map createdEvent ∧
        (s.Reconcile w).2.2 = w') := by
  refine ⟨?_, ?_, ?_⟩
  · have ht := getManagedClusterPrincipalID_trace s w
    rcases hl : s.getManagedClusterPrincipalID w with ⟨o, t, w1⟩
    rw [hl] at ht
    simp only at ht
    subst ht
    cases o with
    | fault =>
      simp [Service.Reconcile, hl]
    | ret a =>
      obtain ⟨pid, oe⟩ := a
      cases oe with
      | some err =>
        simp [Service.Reconcile, hl]
      | none =>
        rw [Reconcile_of_lookup s w w1 pid _ hl]
        simp only [Run.after_fst, Run.after_trace]
        rw [(reconcileSpecs_error_iff s _ w1).1]
        simp
  · intro pid t0 w0 wi pre post spec hl hspecs hpre
    rw [Reconcile_of_lookup s w w0 pid t0 hl, hspecs]
    obtain ⟨-, h2, -⟩ := reconcileSpecs_append s (spec :: post) pre w0 wi hpre
    obtain ⟨tl, htl⟩ := reconcileSpecs_head s spec post wi
    refine ⟨tl, ?_⟩
    simp only [Run.after_trace, calls_append, h2, htl, List.cons_append, calls_cons_log,
      calls_cons_managedClustersGet, calls_nil, List.nil_append]
  · intro pid t0 w0 w' hl hall
    rw [Reconcile_of_lookup s w w0 pid t0 hl]
    obtain ⟨h1, h2, h3⟩ := reconcileSpecs_append s [] _ w0 w' hall
    simp only [List.append_nil] at h1 h2 h3
    simp only [Run.after_fst, Run.after_trace, Run.after_world, calls_append, h1, h2, h3,
      List.cons_append, calls_cons_log, calls_cons_managedClustersGet, calls_nil,
      List.nil_append, Service.reconcileSpecs, List.append_nil, and_self]

end

/-- C4 on two role assignment specs, the first with an empty name: both are created and nil is returned. -/
theorem roleassignments_Reconcile_fails_only_on_lookup_or_create_witness :
    (Example.roleAssignmentSpec "").ResourceName = "" ∧
    Example.roleAssignments.getManagedClusterPrincipalID 0 =
      (.ret (some "principal", none),
        [.log "fetching principal ID for ManagedCluster", .managedClustersGet], 1) ∧
    Example.roleAssignments.RoleAssignmentSpecs (some "principal") 1 =
      [] ++ Example.roleAssignmentSpec "" :: [Example.roleAssignmentSpec "ra2"] ∧
    passAll Example.roleAssignments.createStep
      (Example.roleAssignments.RoleAssignmentSpecs (some "principal") 1) 1 = some 3 ∧
    (Example.roleAssignments.Reconcile 0).1 = .ret none ∧
    calls (Example.roleAssignments.Reconcile 0).2.1 =
      [.managedClustersGet,
        .createOrUpdateResource "" "roleassignments" none,
        .createOrUpdateResource "ra2" "roleassignments" none] ∧
    (∃ tl, calls (Example.roleAssignments.Reconcile 0).2.1 =
      .managedClustersGet :: .createOrUpdateResource "" "roleassignments" none :: tl) :=
  have h := roleassignments_Reconcile_fails_only_on_lookup_or_create Example.roleAssignments 0
  have h3 := h.2.2 (some "principal") _ 1 3 rfl rfl
  ⟨rfl, rfl, rfl, rfl, h3.1, h3.2.1,
    h.2.1 (some "principal") _ 1 1 [] [Example.roleAssignmentSpec "ra2"]
      (Example.roleAssignmentSpec "") rfl rfl rfl⟩


/-! ## C5 to C9: role definitions, and `Delete` of the role assignment service -/

section roledefinitions

open managedroledefinitions

/-- C5: for every `RoleDefinitionSpec` and every existing value that is an
`authorization.RoleDefinition`, whatever its fields, `Parameters` returns nil
parameters and a nil error; and these nil parameters are nothing the client
submits: handed to `CreateOrUpdateAsync`, they make it return without a remote
`CreateOrUpdate` call. -/
theorem Parameters_existing_roleDefinition_is_noop (s : RoleDefinitionSpec)
    (existing : RoleDefinition) :
    s.Parameters (some (.roleDefinition existing)) = (none, none) ∧
    ∀ (σ : Type) (ac : azureClient σ) (w : σ),
      (ac.CreateOrUpdateAsync s.toGetter (s.Parameters (some (.roleDefinition existing))).1 w).2 =
        ([], w) :=
  ⟨rfl, fun _ _ _ => rfl⟩

/-- C6: `Parameters` returns a non-nil error exactly when `existing` is non-nil
and is not an `authorization.RoleDefinition`; the parameters returned with the
error are nil and the error names the type of `existing`.  When `existing` is
nil it returns the `RoleDefinitionProperties` of the spec, of role type
`CustomRole`, with a nil error. -/
theorem Parameters_error_iff_existing_not_roleDefinition (s : RoleDefinitionSpec)
    (existing : Option GoValue) :
    ((s.Parameters existing).2 ≠ none ↔
      (existing ≠ none ∧ ∀ rd, existing ≠ some (.roleDefinition rd))) ∧
    ((s.Parameters existing).2 ≠ none →
      s.Parameters existing =
        (none, some (.errorf (typeName existing ++ " is not a authorization.RoleDefinition")))) ∧
    s.Parameters none =
      (some (.roleDefinitionProperties
        { RoleName := s.RoleName
          Description := none
          RoleType := some "CustomRole"
          Permissions := s.Permissions
          AssignableScopes := s.AssignableScopes }), none) := by
  refine ⟨?_, ?_, rfl⟩
  · cases existing with
    | none => simp [RoleDefinitionSpec.Parameters]
    | some v => cases v <;> simp [RoleDefinitionSpec.Parameters]
  · cases existing with
    | none => simp [RoleDefinitionSpec.Parameters]
    | some v => cases v <;> simp [RoleDefinitionSpec.Parameters]

/-- C6 on an existing value of type `string`. -/
theorem Parameters_error_iff_existing_not_roleDefinition_witness :
    (Example.roleDefinitionSpec.Parameters (some (.other "string"))).2 ≠ none ∧
    Example.roleDefinitionSpec.Parameters (some (.other "string")) =
      (none, some (.errorf "string is not a authorization.RoleDefinition")) :=
  ⟨by decide,
    (Parameters_error_iff_existing_not_roleDefinition Example.roleDefinitionSpec
      (some (.other "string"))).2.1 (by decide)⟩

/-- C7: deleting role definitions does nothing and reports success: for every
service (every scope, whatever specs it lists) `Service.Delete` returns nil,
makes no call at all (no `DeleteResource`, no client call) and leaves the world
as it was; and for every spec `azureClient.DeleteAsync` returns a nil future and
a nil error, without a call. -/
theorem roledefinitions_Delete_is_noop {σ : Type} (s : Service σ) (ac : azureClient σ)
    (spec : ResourceSpecGetter) (w : σ) :
    s.Delete w = (.ret none, [], w) ∧
    ac.DeleteAsync spec w = (.ret (none, none), [], w) :=
  ⟨rfl, rfl⟩

end roledefinitions

/-- C8 (the code at a failing input): with two role assignment specs and a
`DeleteResource` that fails, the role assignment `Delete` passes the first spec
to `DeleteResource` and returns the error wrapped; it is no no-op. -/
theorem roleassignments_Delete_calls_DeleteResource :
    Example.roleAssignments.Delete 0 =
      (.ret (some (.wrap (.errorf "authorization failed") "cannot delete assign role assigned")),
        [.log "Deleting role assignment",
          .log ("RoleAssignmentName is empty. This is not expected and will cause this " ++
            "System Assigned Identity to have no permissions."),
          .deleteResource "" "roleassignments" (some (.errorf "authorization failed")),
          .log "failed to delete role assignment"],
        1) := by
  decide

section roledefinitionsClient

open managedroledefinitions

/-- C9: `CreateOrUpdateAsync` of the role definition client never returns a
future: for every spec, parameters and world, it returns and its second result
is nil.  When the parameters are not an `authorization.RoleDefinitionProperties`
it returns a non-nil error that names their type, makes no remote
`CreateOrUpdate` call and leaves the world as it was. -/
theorem CreateOrUpdateAsync_never_returns_future {σ : Type} (ac : azureClient σ)
    (spec : ResourceSpecGetter) (parameters : Option GoValue) (w : σ) :
    (∃ result err, (ac.CreateOrUpdateAsync spec parameters w).1 = .ret (result, none, err)) ∧
    ((∀ p, parameters ≠ some (.roleDefinitionProperties p)) →
      ac.CreateOrUpdateAsync spec parameters w =
        (.ret (none, none, some (.errorf
          (typeName parameters ++ " is not a authorization.RoleDefinitionProperties"))),
          [], w)) := by
  constructor
  · unfold azureClient.CreateOrUpdateAsync
    split
    · simp only
      split <;> exact ⟨_, _, rfl⟩
    · exact ⟨_, _, rfl⟩
  · intro h
    unfold azureClient.CreateOrUpdateAsync
    split
    · next p => exact absurd rfl (h p)
    · rfl

/-- C9 on nil parameters, and on the parameters of a spec. -/
theorem CreateOrUpdateAsync_never_returns_future_witness :
    (∀ p, (none : Option GoValue) ≠ some (.roleDefinitionProperties p)) ∧
    Example.roleDefinitionsClient.CreateOrUpdateAsync Example.roleDefinitionSpec.toGetter none 0 =
      (.ret (none, none,
        some (.errorf "<nil> is not a authorization.RoleDefinitionProperties")), [], 0) ∧
    (Example.roleDefinitionsClient.CreateOrUpdateAsync Example.roleDefinitionSpec.toGetter
      (Example.roleDefinitionSpec.Parameters none).1 0).1 =
      .ret (some (.roleDefinition
        { ID := some "role-id"
          Name := some "capz-role"
          Type_ := none
          RoleDefinitionProperties := some
            { RoleName := some "capz-role"
              Description := none
              RoleType := some "CustomRole"
              Permissions := some [{ Actions := some ["*/read"], NotActions := none }]
              AssignableScopes := some ["/subscriptions/sub"] } }), none, none) :=
  ⟨fun _ h => Option.noConfusion h,
    (CreateOrUpdateAsync_never_returns_future Example.roleDefinitionsClient
      Example.roleDefinitionSpec.toGetter none 0).2 (fun _ h => Option.noConfusion h),
    rfl⟩

end roledefinitionsClient


/-! ## C10: `deleteUnmanagedAgentPools` -/

section
variable {σ : Type}

theorem agentPoolDeletes_append (t u : List Event) :
    agentPoolDeletes (t ++ u) = agentPoolDeletes t ++ agentPoolDeletes u := by
  induction t with
  | nil => rfl
  | cons ev t ih => cases ev <;> simp [agentPoolDeletes, ih]

theorem buildPoolMap_mem :
    ∀ (items : List AzureManagedMachinePool) (acc poolMap : List String),
      buildPoolMap items acc = .ret poolMap →
      ∀ n, n ∈ poolMap ↔ n ∈ acc ∨ n ∈ managedPoolNames items
  | [], acc, poolMap, h, n => by
    simp only [buildPoolMap, Outcome.ret.injEq] at h
    subst h
    simp [managedPoolNames]
  | pool :: rest, acc, poolMap, h, n => by
    unfold buildPoolMap at h
    split at h
    · cases h
    · next name hname =>
      rw [buildPoolMap_mem rest (name :: acc) poolMap h n]
      simp only [managedPoolNames, List.filterMap_cons, hname, List.mem_cons]
      tauto

theorem buildPoolMap_total :
    ∀ (items : List AzureManagedMachinePool) (acc : List String),
      (∀ p ∈ items, p.Spec.Name ≠ none) → ∃ poolMap, buildPoolMap items acc = .ret poolMap
  | [], acc, _ => ⟨acc, rfl⟩
  | pool :: rest, acc, h => by
    unfold buildPoolMap
    cases hname : pool.Spec.Name with
    | none => exact absurd hname (h pool (List.mem_cons_self _ _))
    | some name =>
      exact buildPoolMap_total rest (name :: acc) (fun p hp => h p (List.mem_cons_of_mem _ hp))

theorem deletesFit_cons_ok (cn : String) (o : Outcome (Option GoError)) (name : String)
    (ds : List (String × Option GoError)) (h : DeletesFit cn o ds) :
    DeletesFit cn o ((name, none) :: ds) := by
  rcases h with h | ⟨pre, n, e, h1, h2, h3⟩
  · left
    intro d hd
    rcases List.mem_cons.1 hd with rfl | hd
    · rfl
    · exact h d hd
  · right
    refine ⟨(name, none) :: pre, n, e, by simp [h1], ?_, h3⟩
    intro d hd
    rcases List.mem_cons.1 hd with rfl | hd
    · rfl
    · exact h2 d hd

theorem deletePagePools_sound (client : AgentPoolsClient σ) (rg cn : String)
    (poolMap : List String) :
    ∀ (pools : List AgentPool) (w : σ),
      (∀ d ∈ agentPoolDeletes (deletePagePools client rg cn poolMap pools w).2.1,
        d.1 ∉ poolMap ∧ ∃ pool ∈ pools, pool.Name = some d.1) ∧
      DeletesFit cn (deletePagePools client rg cn poolMap pools w).1
        (agentPoolDeletes (deletePagePools client rg cn poolMap pools w).2.1) ∧
      ((deletePagePools client rg cn poolMap pools w).1 = .ret none →
        ∀ d ∈ agentPoolDeletes (deletePagePools client rg cn poolMap pools w).2.1, d.2 = none)
  | [], w => by
    simp [deletePagePools, agentPoolDeletes, DeletesFit]
  | pool :: rest, w => by
    unfold deletePagePools
    split
    · simp [agentPoolDeletes, DeletesFit]
    · next name hname =>
      split
      · obtain ⟨ih1, ih2, ih3⟩ := deletePagePools_sound client rg cn poolMap rest w
        refine ⟨fun d hd => ?_, ih2, ih3⟩
        obtain ⟨h1, p, hp, hp2⟩ := ih1 d hd
        exact ⟨h1, p, List.mem_cons_of_mem _ hp, hp2⟩
      · next hnot =>
        split
        · next err w1 _ =>
          simp only [agentPoolDeletes]
          refine ⟨?_, ?_, ?_⟩
          · intro d hd
            simp only [List.mem_singleton] at hd
            subst hd
            exact ⟨hnot, pool, List.mem_cons_self _ _, hname⟩
          · right
            exact ⟨[], name, err, rfl, by simp, rfl⟩
          · intro h
            simp at h
        · next w1 _ =>
          obtain ⟨ih1, ih2, ih3⟩ := deletePagePools_sound client rg cn poolMap rest w1
          simp only [Run.after_fst, Run.after_trace, List.cons_append, List.append_eq,
            List.nil_append, agentPoolDeletes]
          refine ⟨?_, deletesFit_cons_ok cn _ name _ ih2, ?_⟩
          · intro d hd
            rcases List.mem_cons.1 hd with rfl | hd
            · exact ⟨hnot, pool, List.mem_cons_self _ _, hname⟩
            · obtain ⟨h1, p, hp, hp2⟩ := ih1 d hd
              exact ⟨h1, p, List.mem_cons_of_mem _ hp, hp2⟩
          · intro h d hd
            rcases List.mem_cons.1 hd with rfl | hd
            · rfl
            · exact ih3 h d hd

theorem deletePagePools_complete (client : AgentPoolsClient σ) (rg cn : String)
    (poolMap : List String)
    (hdel : ∀ (n : String) (w : σ), (client.Delete rg cn n w).1 = none) :
    ∀ (pools : List AgentPool) (w : σ),
      (∀ pool ∈ pools, pool.Name ≠ none) →
      (deletePagePools client rg cn poolMap pools w).1 = .ret none ∧
      (agentPoolDeletes (deletePagePools client rg cn poolMap pools w).2.1).map Prod.fst =
        (pools.filterMap AgentPool.Name).filter (fun n => decide (n ∉ poolMap))
  | [], w, _ => by simp [deletePagePools, agentPoolDeletes]
  | pool :: rest, w, h => by
    have hrest : ∀ p ∈ rest, p.Name ≠ none := fun p hp => h p (List.mem_cons_of_mem _ hp)
    unfold deletePagePools
    cases hname : pool.Name with
    | none => exact absurd hname (h pool (List.mem_cons_self _ _))
    | some name =>
      simp only [List.filterMap_cons, hname]
      by_cases hmem : name ∈ poolMap
      · obtain ⟨ih1, ih2⟩ := deletePagePools_complete client rg cn poolMap hdel rest w hrest
        simp only [hmem, if_true]
        refine ⟨ih1, ?_⟩
        rw [ih2, List.filter_cons_of_neg (by simpa using hmem)]
      · simp only [hmem, if_false]
        rcases hd : client.Delete rg cn name w with ⟨oe, w1⟩
        have hoe : oe = none := by
          have := hdel name w
          rw [hd] at this
          exact this
        subst hoe
        obtain ⟨ih1, ih2⟩ := deletePagePools_complete client rg cn poolMap hdel rest w1 hrest
        simp only [Run.after_fst, Run.after_trace, List.cons_append, List.append_eq,
          List.nil_append, agentPoolDeletes, List.map_cons]
        refine ⟨ih1, ?_⟩
        rw [ih2, List.filter_cons_of_pos (by simpa using hmem)]

end

section
variable {σ : Type}

theorem deletesFit_append_ok (cn : String) (o : Outcome (Option GoError))
    (ds1 ds2 : List (String × Option GoError)) (h1 : ∀ d ∈ ds1, d.2 = none)
    (h2 : DeletesFit cn o ds2) : DeletesFit cn o (ds1 ++ ds2) := by
  rcases h2 with h2 | ⟨pre, n, e, h3, h4, h5⟩
  · left
    intro d hd
    rcases List.mem_append.1 hd with hd | hd
    · exact h1 d hd
    · exact h2 d hd
  · right
    refine ⟨ds1 ++ pre, n, e, by simp [h3], ?_, h5⟩
    intro d hd
    rcases List.mem_append.1 hd with hd | hd
    · exact h1 d hd
    · exact h4 d hd

theorem mem_listedPools_of_mem_current (current : List AgentPool)
    (pending : List (Except GoError (List AgentPool))) (pool : AgentPool)
    (h : pool ∈ current) : pool ∈ listedPools current pending := by
  cases current with
  | nil => cases h
  | cons p ps =>
    cases pending with
    | nil => simpa [listedPools] using h
    | cons q rest =>
      cases q with
      | error err => simpa [listedPools] using h
      | ok vs =>
        simp only [listedPools, List.mem_append]
        exact Or.inl h

theorem deletePage_sound (client : AgentPoolsClient σ) (rg cn : String)
    (poolMap : List String) (pools : List AgentPool) (result : AgentPoolListResultPage) (w : σ)
    (next : σ → Run σ (Option GoError))
    (hcur : ∀ pool ∈ result.current, pool ∈ pools)
    (hnext : result.current ≠ [] → ∀ w1, PageSound cn poolMap pools (next w1)) :
    PageSound cn poolMap pools (deletePage client rg cn poolMap result w next) := by
  unfold deletePage
  obtain ⟨h1, h2, h3⟩ := deletePagePools_sound client rg cn poolMap result.Values w
  split
  · next hnd =>
    have hne : result.current ≠ [] := by
      intro h0
      simp [AgentPoolListResultPage.NotDone, h0] at hnd
    split
    · next t w1 heq =>
      rw [heq] at h1 h2 h3
      obtain ⟨n1, n2⟩ := hnext hne w1
      have hsplit : agentPoolDeletes (t ++ [Event.agentPoolsNext] ++ (next w1).2.1) =
          agentPoolDeletes t ++ agentPoolDeletes (next w1).2.1 := by
        rw [agentPoolDeletes_append, agentPoolDeletes_append]
        simp [agentPoolDeletes]
      refine ⟨?_, ?_⟩
      · intro d hd
        simp only [Run.after_trace] at hd
        rw [hsplit] at hd
        rcases List.mem_append.1 hd with hd | hd
        · obtain ⟨a, p, hp, hp2⟩ := h1 d hd
          exact ⟨a, p, hcur p hp, hp2⟩
        · exact n1 d hd
      · simp only [Run.after_trace, Run.after_fst]
        rw [hsplit]
        exact deletesFit_append_ok cn _ _ _ (h3 rfl) n2
    · refine ⟨?_, h2⟩
      intro d hd
      obtain ⟨a, p, hp, hp2⟩ := h1 d hd
      exact ⟨a, p, hcur p hp, hp2⟩
  · exact ⟨by simp [agentPoolDeletes], Or.inl (by simp [agentPoolDeletes])⟩

theorem PageSound.mono (cn : String) (poolMap : List String) (pools pools2 : List AgentPool)
    (r : Run σ (Option GoError)) (hsub : ∀ p ∈ pools, p ∈ pools2)
    (h : PageSound cn poolMap pools r) : PageSound cn poolMap pools2 r := by
  refine ⟨fun d hd => ?_, h.2⟩
  obtain ⟨a, p, hp, hp2⟩ := h.1 d hd
  exact ⟨a, p, hsub p hp, hp2⟩

theorem deletePages_sound (client : AgentPoolsClient σ) (rg cn : String)
    (poolMap : List String) :
    ∀ (pending : List (Except GoError (List AgentPool))) (current : List AgentPool) (w : σ),
      PageSound cn poolMap (listedPools current pending)
        (deletePages client rg cn poolMap pending current w)
  | [], current, w => by
    unfold deletePages
    refine deletePage_sound client rg cn poolMap _ _ w _
      (fun p hp => mem_listedPools_of_mem_current _ _ p hp) (fun _ w1 => ?_)
    exact ⟨by simp [agentPoolDeletes], Or.inl (by simp [agentPoolDeletes])⟩
  | .error err :: rest, current, w => by
    unfold deletePages
    refine deletePage_sound client rg cn poolMap _ _ w _
      (fun p hp => mem_listedPools_of_mem_current _ _ p hp) (fun _ w1 => ?_)
    exact ⟨by simp [agentPoolDeletes], Or.inl (by simp [agentPoolDeletes])⟩
  | .ok vs :: rest, current, w => by
    unfold deletePages
    refine deletePage_sound client rg cn poolMap _ _ w _
      (fun p hp => mem_listedPools_of_mem_current _ _ p hp) (fun hne w1 => ?_)
    refine PageSound.mono cn poolMap _ _ _ ?_ (deletePages_sound client rg cn poolMap rest vs w1)
    intro p hp
    cases current with
    | nil => exact absurd rfl hne
    | cons c cs =>
      simp only [listedPools, List.mem_append]
      exact Or.inr hp

theorem deletePages_complete (client : AgentPoolsClient σ) (rg cn : String)
    (poolMap : List String)
    (hdel : ∀ (n : String) (w : σ), (client.Delete rg cn n w).1 = none) :
    ∀ (pending : List (Except GoError (List AgentPool))) (current : List AgentPool) (w : σ),
      (∀ q ∈ pending, ∃ vs, q = .ok vs) →
      (∀ pool ∈ listedPools current pending, pool.Name ≠ none) →
      (deletePages client rg cn poolMap pending current w).1 = .ret none ∧
      (agentPoolDeletes (deletePages client rg cn poolMap pending current w).2.1).map Prod.fst =
        ((listedPools current pending).filterMap AgentPool.Name).filter
          (fun n => decide (n ∉ poolMap))
  | [], current, w, _, hn => by
    unfold deletePages deletePage
    cases current with
    | nil => simp [AgentPoolListResultPage.NotDone, listedPools, agentPoolDeletes]
    | cons c cs =>
      obtain ⟨h1, h2⟩ := deletePagePools_complete client rg cn poolMap hdel (c :: cs) w
        (fun p hp => hn p (by simpa [listedPools] using hp))
      rcases hr : deletePagePools client rg cn poolMap (c :: cs) w with ⟨o, t, w1⟩
      rw [hr] at h1 h2
      simp only at h1 h2
      subst h1
      simp only [AgentPoolListResultPage.NotDone, AgentPoolListResultPage.Values, hr,
        List.isEmpty_cons, Bool.not_false, if_true, Run.after_fst, Run.after_trace,
        agentPoolDeletes_append, listedPools]
      simp [agentPoolDeletes, h2]
  | .error err :: rest, current, w, hp, _ => by
    obtain ⟨vs, hvs⟩ := hp _ (List.mem_cons_self _ _)
    cases hvs
  | .ok vs :: rest, current, w, hp, hn => by
    unfold deletePages deletePage
    cases current with
    | nil => simp [AgentPoolListResultPage.NotDone, listedPools, agentPoolDeletes]
    | cons c cs =>
      obtain ⟨h1, h2⟩ := deletePagePools_complete client rg cn poolMap hdel (c :: cs) w
        (fun p hp => hn p (by simp only [listedPools, List.mem_append]; exact Or.inl hp))
      rcases hr : deletePagePools client rg cn poolMap (c :: cs) w with ⟨o, t, w1⟩
      rw [hr] at h1 h2
      simp only at h1 h2
      subst h1
      obtain ⟨i1, i2⟩ := deletePages_complete client rg cn poolMap hdel rest vs w1
        (fun q hq => hp q (List.mem_cons_of_mem _ hq))
        (fun p hp => hn p (by simp only [listedPools, List.mem_append]; exact Or.inr hp))
      simp only [AgentPoolListResultPage.NotDone, AgentPoolListResultPage.Values, hr,
        List.isEmpty_cons, Bool.not_false, if_true, Run.after_fst, Run.after_trace,
        agentPoolDeletes_append, listedPools, i1, List.map_append, h2, i2,
        List.filterMap_append, List.filter_append]
      simp [agentPoolDeletes]

end

section
variable {σ : Type}

theorem deletesFit_last (cn : String) (o : Outcome (Option GoError))
    (ds : List (String × Option GoError)) (h : DeletesFit cn o ds) :
    ∀ (pre post : List (String × Option GoError)) (name : String) (e : GoError),
      ds = pre ++ (name, some e) :: post →
      post = [] ∧ (∀ d ∈ pre, d.2 = none) ∧
        o = .ret (some (.wrap e
          ("failed to delete agent pool " ++ name ++ " in cluster " ++ cn))) := by
  intro pre post name e hds
  rcases h with h | ⟨pre2, n, e2, h1, h2, h3⟩
  · have := h (name, some e) (by rw [hds]; simp)
    cases this
  · rw [h1] at hds
    have key : ∀ (a b : List (String × Option GoError)),
        (∀ d ∈ a, d.2 = none) → a ++ [(n, some e2)] = b ++ (name, some e) :: post →
        post = [] ∧ a = b ∧ n = name ∧ e2 = e := by
      intro a
      induction a with
      | nil =>
        intro b _ hab
        cases b with
        | nil =>
          simp only [List.nil_append, List.cons.injEq, Prod.mk.injEq, Option.some.injEq] at hab
          exact ⟨hab.2.symm, rfl, hab.1.1, hab.1.2⟩
        | cons y ys =>
          simp only [List.nil_append, List.cons_append, List.cons.injEq] at hab
          have := hab.2
          cases ys <;> simp at this
      | cons x xs ih =>
        intro b hok hab
        cases b with
        | nil =>
          simp only [List.cons_append, List.nil_append, List.cons.injEq] at hab
          have hx := hok x (List.mem_cons_self _ _)
          rw [hab.1] at hx
          cases hx
        | cons y ys =>
          simp only [List.cons_append, List.cons.injEq] at hab
          obtain ⟨p1, p2, p3, p4⟩ := ih ys (fun d hd => hok d (List.mem_cons_of_mem _ hd)) hab.2
          exact ⟨p1, by rw [hab.1, p2], p3, p4⟩
    obtain ⟨p1, p2, p3, p4⟩ := key pre2 pre h2 hds
    subst p2 p3 p4
    exact ⟨p1, h2, h3⟩

theorem deleteUnmanagedAgentPools_cases (r : azureManagedControlPlaneService σ) (w : σ) :
    agentPoolDeletes (r.deleteUnmanagedAgentPools w).2.1 = [] ∨
    ∃ (items : List AzureManagedMachinePool) (w1 w2 : σ) (poolMap : List String)
      (result : AgentPoolListResultPage),
      r.kubeclient.List [(ClusterNameLabel, r.clusterName)] w = (.ok items, w1) ∧
      buildPoolMap items [] = .ret poolMap ∧
      r.agentPoolsClient.List r.scope.ManagedClusterSpec.ResourceGroupName r.clusterName w1 =
        (.ok result, w2) ∧
      r.deleteUnmanagedAgentPools w =
        Run.after [.deleteUnmanagedAgentPools, .kubeclientList, .agentPoolsList]
          (deletePages r.agentPoolsClient r.scope.ManagedClusterSpec.ResourceGroupName
            r.clusterName poolMap result.pending result.current w2) := by
  unfold azureManagedControlPlaneService.deleteUnmanagedAgentPools
  simp only [azureManagedControlPlaneService.clusterName,
    azureManagedControlPlaneService.agentPoolsClient]
  split
  · left; rfl
  · next items w1 hk =>
    split
    · left; rfl
    · next poolMap hb =>
      split
      · left; rfl
      · next result w2 hl =>
        right
        exact ⟨items, w1, w2, poolMap, result, hk, hb, hl, rfl⟩

theorem agentPoolDeletes_after_header (r : Run σ (Option GoError)) :
    agentPoolDeletes
      (Run.after [.deleteUnmanagedAgentPools, .kubeclientList, .agentPoolsList] r).2.1 =
      agentPoolDeletes r.2.1 := by
  simp [agentPoolDeletes]

/-- What the deletions of `deleteUnmanagedAgentPools` always are, and what they
are where no nil name is met: it never deletes an agent pool whose name is the
`Spec.Name` of a listed `AzureManagedMachinePool`, and deletes only pools the
agent pool listing returned.  A deletion that fails is the last one, and its
error is returned wrapped.  When the two listings, every further page of the
agent pool listing and every deletion succeed and every listed pool carries a
name, nil is returned and the deletions are, in listing order over all pages,
exactly the listed agent pools whose name is not the `Spec.Name` of a listed
managed machine pool. -/
theorem deleteUnmanagedAgentPools_deletes_exactly_unmanaged
    (r : azureManagedControlPlaneService σ) (w : σ) :
    (∀ (items : List AzureManagedMachinePool) (w1 : σ),
        r.kubeclient.List [(ClusterNameLabel, r.clusterName)] w = (.ok items, w1) →
        ∀ d ∈ agentPoolDeletes (r.deleteUnmanagedAgentPools w).2.1,
          ∀ p ∈ items, p.Spec.Name ≠ some d.1) ∧
    (∀ (items : List AzureManagedMachinePool) (w1 w2 : σ) (result : AgentPoolListResultPage),
        r.kubeclient.List [(ClusterNameLabel, r.clusterName)] w = (.ok items, w1) →
        r.agentPoolsClient.List r.scope.ManagedClusterSpec.ResourceGroupName r.clusterName w1 =
          (.ok result, w2) →
        ∀ d ∈ agentPoolDeletes (r.deleteUnmanagedAgentPools w).2.1,
          ∃ pool ∈ listedPools result.current result.pending, pool.Name = some d.1) ∧
    (∀ (pre post : List (String × Option GoError)) (name : String) (e : GoError),
        agentPoolDeletes (r.deleteUnmanagedAgentPools w).2.1 = pre ++ (name, some e) :: post →
        post = [] ∧ (∀ d ∈ pre, d.2 = none) ∧
        (r.deleteUnmanagedAgentPools w).1 = .ret (some (.wrap e
          ("failed to delete agent pool " ++ name ++ " in cluster " ++ r.clusterName)))) ∧
    (∀ (items : List AzureManagedMachinePool) (w1 w2 : σ) (result : AgentPoolListResultPage),
        r.kubeclient.List [(ClusterNameLabel, r.clusterName)] w = (.ok items, w1) →
        r.agentPoolsClient.List r.scope.ManagedClusterSpec.ResourceGroupName r.clusterName w1 =
          (.ok result, w2) →
        (∀ q ∈ result.pending, ∃ vs, q = .ok vs) →
        (∀ (n : String) (w' : σ),
          (r.agentPoolsClient.Delete r.scope.ManagedClusterSpec.ResourceGroupName r.clusterName
            n w').1 = none) →
        (∀ p ∈ items, p.Spec.Name ≠ none) →
        (∀ pool ∈ listedPools result.current result.pending, pool.Name ≠ none) →
        (r.deleteUnmanagedAgentPools w).1 = .ret none ∧
        (agentPoolDeletes (r.deleteUnmanagedAgentPools w).2.1).map Prod.fst =
          ((listedPools result.current result.pending).filterMap AgentPool.Name).filter
            (fun n => decide (n ∉ managedPoolNames items)) ∧
        (∀ pool ∈ listedPools result.current result.pending, ∀ n, pool.Name = some n →
          (n ∈ (agentPoolDeletes (r.deleteUnmanagedAgentPools w).2.1).map Prod.fst ↔
            ∀ p ∈ items, p.Spec.Name ≠ some n))) := by
  have hnames : ∀ (items : List AzureManagedMachinePool) (n : String),
      n ∉ managedPoolNames items ↔ ∀ p ∈ items, p.Spec.Name ≠ some n := by
    intro items n
    simp [managedPoolNames, List.mem_filterMap]
  refine ⟨?_, ?_, ?_, ?_⟩
  · intro items w1 hk d hd
    rcases deleteUnmanagedAgentPools_cases r w with h0 | ⟨items2, w1b, w2, poolMap, result, h1, h2, h3, h4⟩
    · rw [h0] at hd; cases hd
    · rw [hk] at h1
      simp only [Prod.mk.injEq, Except.ok.injEq] at h1
      obtain ⟨rfl, rfl⟩ := h1
      rw [h4, agentPoolDeletes_after_header] at hd
      have hs := (deletePages_sound r.agentPoolsClient
        r.scope.ManagedClusterSpec.ResourceGroupName r.clusterName poolMap
        result.pending result.current w2).1 d hd
      have hmem := buildPoolMap_mem items [] poolMap h2 d.1
      apply (hnames items d.1).1
      intro hin
      exact hs.1 (hmem.2 (Or.inr hin))
  · intro items w1 w2 result hk hl d hd
    rcases deleteUnmanagedAgentPools_cases r w with h0 | ⟨items2, w1b, w2b, poolMap, result2, h1, h2, h3, h4⟩
    · rw [h0] at hd; cases hd
    · rw [hk] at h1
      simp only [Prod.mk.injEq, Except.ok.injEq] at h1
      obtain ⟨rfl, rfl⟩ := h1
      rw [hl] at h3
      simp only [Prod.mk.injEq, Except.ok.injEq] at h3
      obtain ⟨rfl, rfl⟩ := h3
      rw [h4, agentPoolDeletes_after_header] at hd
      exact ((deletePages_sound r.agentPoolsClient
        r.scope.ManagedClusterSpec.ResourceGroupName r.clusterName poolMap
        result.pending result.current w2).1 d hd).2
  · intro pre post name e hds
    rcases deleteUnmanagedAgentPools_cases r w with h0 | ⟨items2, w1b, w2b, poolMap, result2, h1, h2, h3, h4⟩
    · rw [h0] at hds
      cases pre <;> cases hds
    · rw [h4, agentPoolDeletes_after_header] at hds
      rw [h4, Run.after_fst]
      exact deletesFit_last r.clusterName _ _ (deletePages_sound r.agentPoolsClient
        r.scope.ManagedClusterSpec.ResourceGroupName r.clusterName poolMap
        result2.pending result2.current w2b).2 pre post name e hds
  · intro items w1 w2 result hk hl hpages hdel hitems hpools
    obtain ⟨poolMap, hb⟩ := buildPoolMap_total items [] hitems
    have hrun : r.deleteUnmanagedAgentPools w =
        Run.after [.deleteUnmanagedAgentPools, .kubeclientList, .agentPoolsList]
          (deletePages r.agentPoolsClient r.scope.ManagedClusterSpec.ResourceGroupName
            r.clusterName poolMap result.pending result.current w2) := by
      unfold azureManagedControlPlaneService.deleteUnmanagedAgentPools
      simp only [azureManagedControlPlaneService.clusterName,
        azureManagedControlPlaneService.agentPoolsClient] at hk hl ⊢
      simp only [hk, hb, hl]
    obtain ⟨c1, c2⟩ := deletePages_complete r.agentPoolsClient
      r.scope.ManagedClusterSpec.ResourceGroupName r.clusterName poolMap hdel
      result.pending result.current w2 hpages hpools
    have hfilter : ∀ (l : List String),
        l.filter (fun n => decide (n ∉ poolMap)) =
          l.filter (fun n => decide (n ∉ managedPoolNames items)) := by
      intro l
      apply List.filter_congr
      intro n _
      have hmem := buildPoolMap_mem items [] poolMap hb n
      simp only [List.not_mem_nil, false_or] at hmem
      simp [hmem]
    have hlist : (agentPoolDeletes (r.deleteUnmanagedAgentPools w).2.1).map Prod.fst =
        ((listedPools result.current result.pending).filterMap AgentPool.Name).filter
          (fun n => decide (n ∉ managedPoolNames items)) := by
      rw [hrun, agentPoolDeletes_after_header, c2, hfilter]
    refine ⟨by rw [hrun, Run.after_fst, c1], hlist, ?_⟩
    intro pool hpool n hn
    rw [hlist, List.mem_filter, ← hnames items n]
    constructor
    · intro h
      simpa using h.2
    · intro h
      exact ⟨List.mem_filterMap.2 ⟨pool, hpool, hn⟩, by simpa using h⟩

end

/-- On agent pools `np0`, `np1`, `np2` over two pages where `np0` is managed: `np1`
and `np2` are deleted. -/
theorem deleteUnmanagedAgentPools_deletes_exactly_unmanaged_witness :
    (Example.controller []).kubeclient.List
      [(ClusterNameLabel, (Example.controller []).clusterName)] 0 =
      (.ok Example.machinePools, 1) ∧
    (Example.controller []).agentPoolsClient.List
      (Example.controller []).scope.ManagedClusterSpec.ResourceGroupName
      (Example.controller []).clusterName 1 = (.ok Example.agentPoolPages, 2) ∧
    ((Example.controller []).deleteUnmanagedAgentPools 0).1 = .ret none ∧
    (agentPoolDeletes ((Example.controller []).deleteUnmanagedAgentPools 0).2.1).map Prod.fst =
      ["np1", "np2"] ∧
    "np0" ∉ (agentPoolDeletes ((Example.controller []).deleteUnmanagedAgentPools 0).2.1).map
      Prod.fst :=
  have h := (deleteUnmanagedAgentPools_deletes_exactly_unmanaged (Example.controller []) 0).2.2.2
    Example.machinePools 1 2 Example.agentPoolPages rfl rfl
    (by intro q hq; simp only [Example.agentPoolPages, List.mem_singleton] at hq; exact ⟨_, hq⟩)
    (fun _ _ => rfl) (by decide) (by decide)
  ⟨rfl, rfl, h.1, h.2.1, by decide⟩

section
variable {σ : Type}

theorem runDeletes_append (client : AgentPoolsClient σ) (rg cn : String) (l2 : List String) :
    ∀ (l1 : List String) (w : σ),
      runDeletes client rg cn (l1 ++ l2) w =
        match runDeletes client rg cn l1 w with
        | (.ret none, ds, w1) =>
          ((runDeletes client rg cn l2 w1).1, ds ++ (runDeletes client rg cn l2 w1).2.1,
            (runDeletes client rg cn l2 w1).2.2)
        | stopped => stopped
  | [], w => by simp [runDeletes]
  | n :: l1, w => by
    have ih := fun w1 => runDeletes_append client rg cn l2 l1 w1
    show runDeletes client rg cn (n :: (l1 ++ l2)) w = _
    rcases hd : client.Delete rg cn n w with ⟨oe, w1⟩
    cases oe with
    | some err => simp [runDeletes, hd]
    | none =>
      simp only [runDeletes, hd]
      rw [ih w1]
      rcases runDeletes client rg cn l1 w1 with ⟨o, ds, w2⟩
      cases o with
      | fault => rfl
      | ret a => cases a <;> rfl

theorem deletePagePools_run (client : AgentPoolsClient σ) (rg cn : String)
    (poolMap : List String) :
    ∀ (pools : List AgentPool) (w : σ),
      (∀ pool ∈ pools, pool.Name ≠ none) →
      deletionsOf (deletePagePools client rg cn poolMap pools w) =
        runDeletes client rg cn (unmanagedNames poolMap pools) w
  | [], w, _ => by simp [deletePagePools, deletionsOf, unmanagedNames, runDeletes, agentPoolDeletes]
  | pool :: rest, w, h => by
    have hrest : ∀ p ∈ rest, p.Name ≠ none := fun p hp => h p (List.mem_cons_of_mem _ hp)
    unfold deletePagePools
    cases hname : pool.Name with
    | none => exact absurd hname (h pool (List.mem_cons_self _ _))
    | some name =>
      by_cases hmem : name ∈ poolMap
      · have ih := deletePagePools_run client rg cn poolMap rest w hrest
        have hn : unmanagedNames poolMap (pool :: rest) = unmanagedNames poolMap rest := by
          simp only [unmanagedNames, List.filterMap_cons, hname]
          rw [List.filter_cons_of_neg (by simpa using hmem)]
        simp only [hmem, if_true, hn]
        exact ih
      · have hn : unmanagedNames poolMap (pool :: rest) =
            name :: unmanagedNames poolMap rest := by
          simp only [unmanagedNames, List.filterMap_cons, hname]
          rw [List.filter_cons_of_pos (by simpa using hmem)]
        simp only [hmem, if_false, hn]
        rcases hd : client.Delete rg cn name w with ⟨oe, w1⟩
        cases oe with
        | some err => simp [runDeletes, hd, deletionsOf, agentPoolDeletes]
        | none =>
          have ih := deletePagePools_run client rg cn poolMap rest w1 hrest
          simp only [runDeletes, hd, ← ih]
          simp [deletionsOf, agentPoolDeletes]

theorem unmanagedNames_append (poolMap : List String) (l1 l2 : List AgentPool) :
    unmanagedNames poolMap (l1 ++ l2) = unmanagedNames poolMap l1 ++ unmanagedNames poolMap l2 := by
  simp [unmanagedNames]

theorem deletePages_run (client : AgentPoolsClient σ) (rg cn : String)
    (poolMap : List String) :
    ∀ (pending : List (Except GoError (List AgentPool))) (current : List AgentPool) (w : σ),
      (∀ q ∈ pending, ∃ vs, q = .ok vs) →
      (∀ pool ∈ listedPools current pending, pool.Name ≠ none) →
      deletionsOf (deletePages client rg cn poolMap pending current w) =
        runDeletes client rg cn (unmanagedNames poolMap (listedPools current pending)) w
  | [], current, w, _, hn => by
    unfold deletePages deletePage
    cases current with
    | nil =>
      simp [AgentPoolListResultPage.NotDone, listedPools, deletionsOf, unmanagedNames,
        runDeletes, agentPoolDeletes]
    | cons c cs =>
      have h1 := deletePagePools_run client rg cn poolMap (c :: cs) w
        (fun p hp => hn p (by simpa [listedPools] using hp))
      simp only [AgentPoolListResultPage.NotDone, AgentPoolListResultPage.Values,
        List.isEmpty_cons, Bool.not_false, if_true, listedPools]
      rw [← h1]
      rcases deletePagePools client rg cn poolMap (c :: cs) w with ⟨o, t, w1⟩
      cases o with
      | fault => rfl
      | ret a =>
        cases a with
        | some err => rfl
        | none => simp [deletionsOf, agentPoolDeletes_append, agentPoolDeletes, Run.after]
  | .error err :: rest, current, w, hp, _ => by
    obtain ⟨vs, hvs⟩ := hp _ (List.mem_cons_self _ _)
    cases hvs
  | .ok vs :: rest, current, w, hp, hn => by
    unfold deletePages deletePage
    cases current with
    | nil =>
      simp [AgentPoolListResultPage.NotDone, listedPools, deletionsOf, unmanagedNames,
        runDeletes, agentPoolDeletes]
    | cons c cs =>
      have h1 := deletePagePools_run client rg cn poolMap (c :: cs) w
        (fun p hp => hn p (by simp only [listedPools, List.mem_append]; exact Or.inl hp))
      have ih := fun w1 => deletePages_run client rg cn poolMap rest vs w1
        (fun q hq => hp q (List.mem_cons_of_mem _ hq))
        (fun p hp => hn p (by simp only [listedPools, List.mem_append]; exact Or.inr hp))
      simp only [AgentPoolListResultPage.NotDone, AgentPoolListResultPage.Values,
        List.isEmpty_cons, Bool.not_false, if_true, listedPools, unmanagedNames_append,
        runDeletes_append]
      rw [← h1]
      rcases deletePagePools client rg cn poolMap (c :: cs) w with ⟨o, t, w1⟩
      cases o with
      | fault => rfl
      | ret a =>
        cases a with
        | some err => rfl
        | none =>
          simp only [deletionsOf, ← ih w1]
          simp [deletionsOf, agentPoolDeletes_append, agentPoolDeletes, Run.after]

end

section
variable {σ : Type}

theorem unmanagedNames_congr (poolMap poolMap2 : List String) (pools : List AgentPool)
    (h : ∀ n, n ∈ poolMap ↔ n ∈ poolMap2) :
    unmanagedNames poolMap pools = unmanagedNames poolMap2 pools := by
  unfold unmanagedNames
  apply List.filter_congr
  intro n _
  simp [h n]

/-- What holds where no nil name is met: when the two listings and every further
page of the agent pool listing succeed and every listed managed machine pool and
agent pool carries a name, `deleteUnmanagedAgentPools` does what `runDeletes`
does on the names of the listed agent pools, over all pages and in listing
order, that are not the `Spec.Name` of a listed managed machine pool: same
outcome, same deletions with the client's answers, same world left behind. -/
theorem deleteUnmanagedAgentPools_refines_runDeletes
    (r : azureManagedControlPlaneService σ) (w w1 w2 : σ)
    (items : List AzureManagedMachinePool) (result : AgentPoolListResultPage)
    (hk : r.kubeclient.List [(ClusterNameLabel, r.clusterName)] w = (.ok items, w1))
    (hl : r.agentPoolsClient.List r.scope.ManagedClusterSpec.ResourceGroupName r.clusterName w1 =
      (.ok result, w2))
    (hpages : ∀ q ∈ result.pending, ∃ vs, q = .ok vs)
    (hitems : ∀ p ∈ items, p.Spec.Name ≠ none)
    (hpools : ∀ pool ∈ listedPools result.current result.pending, pool.Name ≠ none) :
    deletionsOf (r.deleteUnmanagedAgentPools w) =
      runDeletes r.agentPoolsClient r.scope.ManagedClusterSpec.ResourceGroupName r.clusterName
        (unmanagedNames (managedPoolNames items) (listedPools result.current result.pending))
        w2 := by
  obtain ⟨poolMap, hb⟩ := buildPoolMap_total items [] hitems
  have hrun : r.deleteUnmanagedAgentPools w =
      Run.after [.deleteUnmanagedAgentPools, .kubeclientList, .agentPoolsList]
        (deletePages r.agentPoolsClient r.scope.ManagedClusterSpec.ResourceGroupName
          r.clusterName poolMap result.pending result.current w2) := by
    unfold azureManagedControlPlaneService.deleteUnmanagedAgentPools
    simp only [azureManagedControlPlaneService.clusterName,
      azureManagedControlPlaneService.agentPoolsClient] at hk hl ⊢
    simp only [hk, hb, hl]
  have hcongr := unmanagedNames_congr poolMap (managedPoolNames items)
    (listedPools result.current result.pending) (fun n => by
      have hmem := buildPoolMap_mem items [] poolMap hb n
      simpa using hmem)
  rw [← hcongr, ← deletePages_run r.agentPoolsClient
    r.scope.ManagedClusterSpec.ResourceGroupName r.clusterName poolMap
    result.pending result.current w2 hpages hpools, hrun]
  simp only [deletionsOf, agentPoolDeletes_after_header, Run.after_fst, Run.after_world]

end

/-- The refinement on agent pools `np0`, `np1`, `np2` over two pages where `np0` is
managed: `np1` and `np2` are deleted through the client, which leaves world 4. -/
theorem deleteUnmanagedAgentPools_refines_runDeletes_witness :
    deletionsOf ((Example.controller []).deleteUnmanagedAgentPools 0) =
      (.ret none, [("np1", none), ("np2", none)], 4) :=
  deleteUnmanagedAgentPools_refines_runDeletes (Example.controller []) 0 1 2
    Example.machinePools Example.agentPoolPages rfl rfl
    (by intro q hq; simp only [Example.agentPoolPages, List.mem_singleton] at hq; exact ⟨_, hq⟩)
    (by decide) (by decide)

/-- C10 (the code at a failing input): the listings return one managed machine
pool whose `Spec.Name` is nil and one agent pool, `np1`; every list and delete
call of the system succeeds, and `np1` is the `Spec.Name` of no listed managed
machine pool.  Filling `poolMap`, `deleteUnmanagedAgentPools` reads
`*pool.Spec.Name` through the nil pointer: the run faults after the first
listing, it returns neither nil nor an error, and `np1` is not deleted.  The
same happens when it is a listed agent pool that has no name: the run faults at
that pool, and the unmanaged `np1` listed after it is not deleted. -/
theorem deleteUnmanagedAgentPools_faults_on_nil_name :
    (∀ labels w,
      ((Example.controllerListing Example.machinePoolsUnnamed
        Example.agentPoolPageNp1).kubeclient.List labels w).1 =
        .ok Example.machinePoolsUnnamed) ∧
    (∀ rg cn w,
      ((Example.controllerListing Example.machinePoolsUnnamed
        Example.agentPoolPageNp1).agentPoolsClient.List rg cn w).1 =
        .ok Example.agentPoolPageNp1) ∧
    (∀ rg cn n w,
      ((Example.controllerListing Example.machinePoolsUnnamed
        Example.agentPoolPageNp1).agentPoolsClient.Delete rg cn n w).1 = none) ∧
    (∃ pool ∈ listedPools Example.agentPoolPageNp1.current Example.agentPoolPageNp1.pending,
      pool.Name = some "np1") ∧
    (∀ p ∈ Example.machinePoolsUnnamed, p.Spec.Name ≠ some "np1") ∧
    (Example.controllerListing Example.machinePoolsUnnamed
      Example.agentPoolPageNp1).deleteUnmanagedAgentPools 0 =
      (.fault, [.deleteUnmanagedAgentPools, .kubeclientList], 1) ∧
    agentPoolDeletes ((Example.controllerListing Example.machinePoolsUnnamed
      Example.agentPoolPageNp1).deleteUnmanagedAgentPools 0).2.1 = [] ∧
    (∃ pool ∈ listedPools Example.agentPoolPageUnnamed.current
        Example.agentPoolPageUnnamed.pending,
      pool.Name = some "np1") ∧
    (∀ p ∈ Example.machinePools, p.Spec.Name ≠ some "np1") ∧
    (Example.controllerListing Example.machinePools
      Example.agentPoolPageUnnamed).deleteUnmanagedAgentPools 0 =
      (.fault, [.deleteUnmanagedAgentPools, .kubeclientList, .agentPoolsList], 2) := by
  refine ⟨fun _ _ => rfl, fun _ _ _ => rfl, fun _ _ _ _ => rfl, ?_, by decide, rfl, rfl, ?_,
    by decide, rfl⟩
  · exact ⟨⟨none, some "np1"⟩, by decide, rfl⟩
  · exact ⟨⟨none, some "np1"⟩, by decide, rfl⟩

/-! ## C11: `getManagedClusterPrincipalID` -/

section principalID

variable {σ : Type}

open managedroleassignments

/-- What `getManagedClusterPrincipalID` does on each answer of `Get`: an error of
`Get` is returned as it is, an object that is no `containerservice.ManagedCluster`
gives an error naming its type, a managed cluster with an identity gives the
principal ID of the identity and a nil error. -/
theorem getManagedClusterPrincipalID_returns (s : Service σ) (w w1 : σ) :
    (∀ obj err, s.managedClustersGet s.ResourceGroup s.ClusterName w = ((obj, some err), w1) →
      (s.getManagedClusterPrincipalID w).1 = .ret (none, some err)) ∧
    (∀ obj, s.managedClustersGet s.ResourceGroup s.ClusterName w = ((obj, none), w1) →
      (∀ c, obj ≠ some (.managedCluster c)) →
      (s.getManagedClusterPrincipalID w).1 =
        .ret (none, some (.errorf (typeName obj ++ " is not a containerservice.ManagedCluster")))) ∧
    (∀ c identity,
      s.managedClustersGet s.ResourceGroup s.ClusterName w = ((some (.managedCluster c), none), w1) →
      c.Identity = some identity →
      (s.getManagedClusterPrincipalID w).1 = .ret (identity.PrincipalID, none)) := by
  refine ⟨?_, ?_, ?_⟩
  · intro obj err h
    simp [Service.getManagedClusterPrincipalID, h]
  · intro obj h hno
    unfold Service.getManagedClusterPrincipalID
    rw [h]
    cases obj with
    | none => rfl
    | some v =>
      cases v with
      | managedCluster c => exact absurd rfl (hno c)
      | roleDefinition _ => rfl
      | roleDefinitionProperties _ => rfl
      | other _ => rfl
  · intro c identity h hid
    simp [Service.getManagedClusterPrincipalID, h, hid]

/-- The run of `getManagedClusterPrincipalID` faults exactly when `Get` returns,
without error, a managed cluster whose `Identity` is nil. -/
theorem getManagedClusterPrincipalID_fault_iff (s : Service σ) (w : σ) :
    (s.getManagedClusterPrincipalID w).1 = .fault ↔
      ∃ c, (s.managedClustersGet s.ResourceGroup s.ClusterName w).1 =
        (some (.managedCluster c), none) ∧ c.Identity = none := by
  unfold Service.getManagedClusterPrincipalID
  split
  · next obj err w1 h => simp [h]
  · next obj w1 h =>
    split
    · next c =>
      split
      · next hid => simp [h, hid]
      · next identity hid => simp [h, hid]
    · next hno =>
      rw [h]
      constructor
      · intro hf
        cases hf
      · rintro ⟨c, hc, -⟩
        simp only [Prod.mk.injEq, and_true] at hc
        exact absurd hc (hno c)

end principalID

/-- C11 (the code at a failing input): when `Get` returns, without error, a
managed cluster whose `Identity` is nil, `getManagedClusterPrincipalID` reads
`cluster.Identity.PrincipalID` through the nil pointer: after the one `Get` call
the run faults, it returns neither a principal ID nor an error, and `Reconcile`
of the role assignment service faults with it before any role assignment is
created. -/
theorem getManagedClusterPrincipalID_faults_on_nil_Identity :
    Example.roleAssignmentsNoIdentity.managedClustersGet "rg" "cl" 0 =
      ((some (.managedCluster Example.clusterWithoutIdentity), none), 1) ∧
    Example.clusterWithoutIdentity.Identity = none ∧
    Example.roleAssignmentsNoIdentity.getManagedClusterPrincipalID 0 =
      (.fault, [.log "fetching principal ID for ManagedCluster", .managedClustersGet], 1) ∧
    (∀ principalID err,
      (Example.roleAssignmentsNoIdentity.getManagedClusterPrincipalID 0).1 ≠
        .ret (principalID, err)) ∧
    Example.roleAssignmentsNoIdentity.Reconcile 0 =
      (.fault,
        [.log "reconciling role assignment", .log "fetching principal ID for ManagedCluster",
          .managedClustersGet], 1) := by
  refine ⟨rfl, rfl, rfl, ?_, rfl⟩
  intro principalID err h
  cases h

end Capz
